import Mathlib

/-!
Verification of the lens-edging planner/simulator core
(`core/cam/kinematics.py`, `core/cam/movement_path.py`,
`core/geometric/roughing_generation.py`, `core/geometric/lens_volume.py`,
`callbacks/removal_simulation_logic.py`) against its specification.

The Python numerics are embedded shallowly over `ℝ`: numpy arrays become
`List ℝ` (or index functions where the code only ever reads one element),
elementwise operations become `List.map`/`List.zipWith`, and the numpy
primitives used by the code (`linspace`, `argmax`, `max`, `clip`,
`histogram`, `allclose`) are defined below by their documented semantics.
-/

noncomputable section

open Real List Classical

/-! ## numpy primitives -/

/-- `np.linspace(a, b, n)` (endpoint included).  For `n = 1` numpy returns
`[a]`; the formula below yields `a` there as well because `x / 0 = 0` in `ℝ`. -/
def npLinspace (a b : ℝ) (n : ℕ) : List ℝ :=
  (List.range n).map (fun (i : ℕ) => a + (b - a) * (i : ℝ) / ((n : ℝ) - 1))

/-- `np.argmax`: index of the first occurrence of the maximum value.
`npArgmax [] = 0` (numpy raises there; no call site reaches it on `[]`). -/
def npArgmax : List ℝ → ℕ
  | [] => 0
  | x :: rest =>
    if rest = [] then 0
    else if rest.getD (npArgmax rest) 0 > x then npArgmax rest + 1 else 0

/-- `np.max` over a nonempty list (`0` on `[]`, unreached by the code). -/
def npMax (l : List ℝ) : ℝ := l.foldl max (l.headD 0)

/-- Degrees to radians, `np.deg2rad` / `np.radians`. -/
def deg2rad (d : ℝ) : ℝ := d * π / 180

theorem npLinspace_length (a b : ℝ) (n : ℕ) : (npLinspace a b n).length = n := by
  rw [npLinspace, List.length_map, List.length_range]

theorem npArgmax_lt_length (l : List ℝ) (h : l ≠ []) : npArgmax l < l.length := by
  induction l with
  | nil => exact absurd rfl h
  | cons x rest ih =>
    rw [npArgmax]
    by_cases hr : rest = []
    · simp [hr]
    · rw [if_neg hr]
      by_cases hgt : rest.getD (npArgmax rest) 0 > x
      · rw [if_pos hgt]
        simpa using Nat.succ_lt_succ (ih hr)
      · rw [if_neg hgt]
        simp

theorem le_getD_npArgmax (l : List ℝ) (x : ℝ) (hx : x ∈ l) :
    x ≤ l.getD (npArgmax l) 0 := by
  induction l with
  | nil => cases hx
  | cons a rest ih =>
    rw [npArgmax]
    by_cases hr : rest = []
    · subst hr
      simp only [mem_singleton] at hx
      simp [hx]
    · rw [if_neg hr]
      by_cases hgt : rest.getD (npArgmax rest) 0 > a
      · rw [if_pos hgt]
        rcases mem_cons.mp hx with rfl | hmem
        · simpa using le_of_lt hgt
        · simpa using ih hmem
      · rw [if_neg hgt]
        rcases mem_cons.mp hx with rfl | hmem
        · simp
        · simp only [getD_cons_zero]
          exact le_trans (ih hmem) (not_lt.mp hgt)

theorem le_npMax (l : List ℝ) (x : ℝ) (hx : x ∈ l) : x ≤ npMax l := by
  rcases l with _ | ⟨a, rest⟩
  · cases hx
  · have aux : ∀ (t : List ℝ) (b : ℝ), b ≤ t.foldl max b ∧ ∀ y ∈ t, y ≤ t.foldl max b := by
      intro t
      induction t with
      | nil => intro b; exact ⟨le_refl b, by intro y hy; cases hy⟩
      | cons c t ih =>
        intro b
        refine ⟨le_trans (le_max_left b c) (ih (max b c)).1, ?_⟩
        intro y hy
        rcases mem_cons.mp hy with rfl | hyt
        · exact le_trans (le_max_right b y) (ih (max b y)).1
        · exact (ih (max b c)).2 y hyt
    rcases mem_cons.mp hx with rfl | hmem
    · simpa [npMax] using (aux rest x).1
    · simpa [npMax] using (aux rest a).2 x hmem

/-! ## Kinematics Solver (`core/cam/kinematics.py`, `solve_lens_kinematics_robust`)

The solver's per-index quantities are embedded as functions of the index;
every array read in the source is in bounds, so `List.getD _ _ 0` agrees
with the numpy indexing. -/

/-- Output of the solver: the dict
`{"theta_machine_deg": ..., "x_machine": ..., "z_machine": ...}`. -/
structure KinSolution where
  thetaMachineDeg : List ℝ
  xMachine : List ℝ
  zMachine : List ℝ

namespace Kin

/-- `angles_lens[i] = 2π·i/n` (`np.linspace(0, 2π, n, endpoint=False)`). -/
def angleLens (n i : ℕ) : ℝ := 2 * π * i / n

/-- `lens_x[i] = radii[i]·cos(angles_lens[i])`. -/
def lensX (radii : List ℝ) (i : ℕ) : ℝ :=
  radii.getD i 0 * Real.cos (angleLens radii.length i)

/-- `lens_y[i] = radii[i]·sin(angles_lens[i])`. -/
def lensY (radii : List ℝ) (i : ℕ) : ℝ :=
  radii.getD i 0 * Real.sin (angleLens radii.length i)

/-- Machine rotation angle of step `k` (`theta_machine`, the same
`linspace` as `angles_lens` since `n_machine_steps = len(radii)`). -/
def thetaM (n k : ℕ) : ℝ := 2 * π * k / n

/-- `x_rot[i]` at machine step `k`: rotation of the lens point cloud by
`-θₘ` (`x' = x·cos(-θ) - y·sin(-θ)`). -/
def xRot (radii : List ℝ) (k i : ℕ) : ℝ :=
  lensX radii i * Real.cos (-(thetaM radii.length k)) -
    lensY radii i * Real.sin (-(thetaM radii.length k))

/-- `y_rot[i]` at machine step `k` (`y' = x·sin(-θ) + y·cos(-θ)`). -/
def yRot (radii : List ℝ) (k i : ℕ) : ℝ :=
  lensX radii i * Real.sin (-(thetaM radii.length k)) +
    lensY radii i * Real.cos (-(thetaM radii.length k))

/-- `valid_mask[i] = |y_rot[i]| < a` with `a = tool_radius`. -/
def validPt (radii : List ℝ) (toolRadius : ℝ) (k i : ℕ) : Prop :=
  |yRot radii k i| < toolRadius

/-- `np.where(valid_mask)[0]`: the valid original indices, ascending. -/
def validIdx (radii : List ℝ) (toolRadius : ℝ) (k : ℕ) : List ℕ :=
  (List.range radii.length).filter (fun i => decide (validPt radii toolRadius k i))

/-- Minor semi-axis `b = tool_radius · cos(deg2rad(tilt))`. -/
def minorB (toolRadius tiltDeg : ℝ) : ℝ := toolRadius * Real.cos (deg2rad tiltDeg)

/-- `term_sq` with negatives clipped to `0`, then
`x_centers = x_rot + b·sqrt(term_sq)`, per valid point. -/
def xCenter (radii : List ℝ) (toolRadius tiltDeg : ℝ) (k i : ℕ) : ℝ :=
  xRot radii k i +
    minorB toolRadius tiltDeg *
      Real.sqrt (max 0 (1 - (yRot radii k i) ^ 2 / toolRadius ^ 2))

/-- The `x_centers` array (over the filtered indices, in order). -/
def xCenters (radii : List ℝ) (toolRadius tiltDeg : ℝ) (k : ℕ) : List ℝ :=
  (validIdx radii toolRadius k).map (xCenter radii toolRadius tiltDeg k)

/-- One iteration of the machine-angle loop: the `(machine_x, machine_z)`
pair appended at step `k`.  The empty-filter branch appends the retract
sentinel `(tool_radius + 100, tool_z_offset)`.  Note that the tilt
correction reads `x_rot[max_idx_local]` — the *unfiltered* rotated array
indexed with the *local* index into the filtered `x_centers`. -/
def stepXZ (radii zMap : List ℝ) (toolRadius tiltDeg zOff : ℝ) (k : ℕ) : ℝ × ℝ :=
  if validIdx radii toolRadius k = [] then
    (toolRadius + 100, zOff)
  else
    let xs := xCenters radii toolRadius tiltDeg k
    let maxIdxLocal := npArgmax xs
    let machX := xs.getD maxIdxLocal 0
    let contactIdx := (validIdx radii toolRadius k).getD maxIdxLocal 0
    let tiltZComp := (machX - xRot radii k maxIdxLocal) * Real.tan (deg2rad tiltDeg)
    (machX, zOff - zMap.getD contactIdx 0 - tiltZComp)

/-- `solve_lens_kinematics_robust(radii, z_map, tool_radius, tilt, z_off)`. -/
def solve (radii zMap : List ℝ) (toolRadius tiltDeg zOff : ℝ) : KinSolution where
  thetaMachineDeg :=
    (List.range radii.length).map (fun k => thetaM radii.length k * 180 / π)
  xMachine :=
    (List.range radii.length).map (fun k => (stepXZ radii zMap toolRadius tiltDeg zOff k).1)
  zMachine :=
    (List.range radii.length).map (fun k => (stepXZ radii zMap toolRadius tiltDeg zOff k).2)

theorem solve_xMachine_length (radii zMap : List ℝ) (a t z : ℝ) :
    (solve radii zMap a t z).xMachine.length = radii.length := by
  simp [solve]

theorem solve_zMachine_length (radii zMap : List ℝ) (a t z : ℝ) :
    (solve radii zMap a t z).zMachine.length = radii.length := by
  simp [solve]

theorem solve_xMachine_getD (radii zMap : List ℝ) (a t z : ℝ) (k : ℕ)
    (hk : k < radii.length) :
    (solve radii zMap a t z).xMachine.getD k 0 = (stepXZ radii zMap a t z k).1 := by
  simp [solve, List.getD_eq_getElem?_getD, List.getElem?_map, List.getElem?_range, hk]

theorem solve_zMachine_getD (radii zMap : List ℝ) (a t z : ℝ) (k : ℕ)
    (hk : k < radii.length) :
    (solve radii zMap a t z).zMachine.getD k 0 = (stepXZ radii zMap a t z k).2 := by
  simp [solve, List.getD_eq_getElem?_getD, List.getElem?_map, List.getElem?_range, hk]

end Kin

namespace Kin

/-- The Z formula exactly as claim C4 states it: the tilt correction uses the
rotated x coordinate of the *contact point's original index*
(`x_rot[contact_idx]`), where the source instead reads `x_rot[max_idx_local]`. -/
def claimZ (radii zMap : List ℝ) (toolRadius tiltDeg zOff : ℝ) (k : ℕ) : ℝ :=
  let xs := xCenters radii toolRadius tiltDeg k
  let maxIdxLocal := npArgmax xs
  let machX := xs.getD maxIdxLocal 0
  let contactIdx := (validIdx radii toolRadius k).getD maxIdxLocal 0
  zOff - zMap.getD contactIdx 0 - (machX - xRot radii k contactIdx) * Real.tan (deg2rad tiltDeg)

theorem mem_validIdx (radii : List ℝ) (a : ℝ) (k j : ℕ) (hj : j < radii.length)
    (hv : validPt radii a k j) : j ∈ validIdx radii a k := by
  unfold validIdx
  rw [List.mem_filter]
  exact ⟨List.mem_range.mpr hj, decide_eq_true hv⟩

theorem stepXZ_x_mem (radii zMap : List ℝ) (a t z : ℝ) (k : ℕ)
    (hne : validIdx radii a k ≠ []) :
    (stepXZ radii zMap a t z k).1 ∈ xCenters radii a t k := by
  unfold stepXZ
  rw [if_neg hne]
  have hlen : (xCenters radii a t k).length = (validIdx radii a k).length := by
    unfold xCenters; rw [List.length_map]
  have hxne : xCenters radii a t k ≠ [] := by
    unfold xCenters
    simpa [List.map_eq_nil_iff] using hne
  have harg := npArgmax_lt_length _ hxne
  show (xCenters radii a t k).getD (npArgmax (xCenters radii a t k)) 0 ∈ xCenters radii a t k
  rw [List.getD_eq_getElem _ _ harg]
  exact List.getElem_mem harg

theorem stepXZ_x_ge (radii zMap : List ℝ) (a t z : ℝ) (k j : ℕ)
    (hj : j < radii.length) (hv : validPt radii a k j) :
    xCenter radii a t k j ≤ (stepXZ radii zMap a t z k).1 := by
  have hmem : j ∈ validIdx radii a k := mem_validIdx radii a k j hj hv
  have hne : validIdx radii a k ≠ [] := List.ne_nil_of_mem hmem
  unfold stepXZ
  rw [if_neg hne]
  have hxc : xCenter radii a t k j ∈ xCenters radii a t k := by
    unfold xCenters
    exact List.mem_map_of_mem _ hmem
  simpa using le_getD_npArgmax _ _ hxc

end Kin

/-- C1: at every machine angle the Kinematics Solver keeps exactly the points
with off-axis magnitude `< a` (discarding `|y| ≥ a`), computes
`xCenter = x + b·sqrt(max 0 (1 − y²/a²))` for each, and emits as machine X one
of those `xCenter`s which dominates them all — i.e. their maximum; hence every
non-discarded contour point satisfies
`xCenter ≤ machineX` at its own machine angle. -/
theorem kinematics_max_projection_coverage
    (radii zMap : List ℝ) (toolRadius tiltDeg zOff : ℝ) (k j : ℕ)
    (hk : k < radii.length) (hj : j < radii.length)
    (hvalid : |Kin.yRot radii k j| < toolRadius) :
    (Kin.solve radii zMap toolRadius tiltDeg zOff).xMachine.getD k 0 ∈
        Kin.xCenters radii toolRadius tiltDeg k ∧
      ∀ j2 < radii.length, |Kin.yRot radii k j2| < toolRadius →
        Kin.xCenter radii toolRadius tiltDeg k j2 ≤
          (Kin.solve radii zMap toolRadius tiltDeg zOff).xMachine.getD k 0 := by
  rw [Kin.solve_xMachine_getD radii zMap toolRadius tiltDeg zOff k hk]
  have hne : Kin.validIdx radii toolRadius k ≠ [] :=
    List.ne_nil_of_mem (Kin.mem_validIdx radii toolRadius k j hj hvalid)
  refine ⟨Kin.stepXZ_x_mem radii zMap toolRadius tiltDeg zOff k hne, ?_⟩
  intro j2 hj2 hv2
  exact Kin.stepXZ_x_ge radii zMap toolRadius tiltDeg zOff k j2 hj2 hv2

theorem kinematics_max_projection_coverage_witness :
    (0 < ([2] : List ℝ).length ∧ 0 < ([2] : List ℝ).length ∧
        |Kin.yRot [2] 0 0| < 1) ∧
      ((Kin.solve [2] [0] 1 0 0).xMachine.getD 0 0 ∈ Kin.xCenters [2] 1 0 0 ∧
        ∀ j2 < ([2] : List ℝ).length, |Kin.yRot [2] 0 j2| < 1 →
          Kin.xCenter [2] 1 0 0 j2 ≤ (Kin.solve [2] [0] 1 0 0).xMachine.getD 0 0) := by
  have hy : Kin.yRot [2] 0 0 = 0 := by
    simp [Kin.yRot, Kin.lensX, Kin.lensY, Kin.angleLens, Kin.thetaM]
  refine ⟨⟨by simp, by simp, by rw [hy]; norm_num⟩, ?_⟩
  exact kinematics_max_projection_coverage [2] [0] 1 0 0 0 0 (by simp) (by simp)
    (by rw [hy]; norm_num)

/-- C8: if at machine step `k` no contour point passes the off-axis filter,
the solver emits the finite retract sentinel `tool_radius + 100` with
`z = tool_z_offset` at that step, and still produces full-length output
arrays (it continues with the remaining angles instead of raising). -/
theorem kinematics_retract_sentinel
    (radii zMap : List ℝ) (toolRadius tiltDeg zOff : ℝ) (k : ℕ)
    (hk : k < radii.length)
    (hnone : ∀ j < radii.length, toolRadius ≤ |Kin.yRot radii k j|) :
    (Kin.solve radii zMap toolRadius tiltDeg zOff).xMachine.getD k 0 = toolRadius + 100 ∧
      (Kin.solve radii zMap toolRadius tiltDeg zOff).zMachine.getD k 0 = zOff ∧
      (Kin.solve radii zMap toolRadius tiltDeg zOff).xMachine.length = radii.length ∧
      (Kin.solve radii zMap toolRadius tiltDeg zOff).zMachine.length = radii.length := by
  have hempty : Kin.validIdx radii toolRadius k = [] := by
    unfold Kin.validIdx
    rw [List.filter_eq_nil_iff]
    intro i hi
    rw [decide_eq_true_eq]
    exact fun hv => absurd hv (not_lt.mpr (hnone i (List.mem_range.mp hi)))
  rw [Kin.solve_xMachine_getD radii zMap toolRadius tiltDeg zOff k hk,
    Kin.solve_zMachine_getD radii zMap toolRadius tiltDeg zOff k hk]
  unfold Kin.stepXZ
  rw [if_pos hempty]
  exact ⟨rfl, rfl, Kin.solve_xMachine_length radii zMap toolRadius tiltDeg zOff,
    Kin.solve_zMachine_length radii zMap toolRadius tiltDeg zOff⟩

theorem kinematics_retract_sentinel_witness :
    (0 < ([1] : List ℝ).length ∧ ∀ j < ([1] : List ℝ).length, (0 : ℝ) ≤ |Kin.yRot [1] 0 j|) ∧
      ((Kin.solve [1] [0] 0 0 7).xMachine.getD 0 0 = 0 + 100 ∧
        (Kin.solve [1] [0] 0 0 7).zMachine.getD 0 0 = 7 ∧
        (Kin.solve [1] [0] 0 0 7).xMachine.length = ([1] : List ℝ).length ∧
        (Kin.solve [1] [0] 0 0 7).zMachine.length = ([1] : List ℝ).length) := by
  refine ⟨⟨by simp, fun j _ => abs_nonneg _⟩, ?_⟩
  exact kinematics_retract_sentinel [1] [0] 0 0 7 0 (by simp)
    (fun j _ => abs_nonneg _)

/-! ### C4: evaluation of the solver at `radii = [3,1,2,2]`, `z_map = 0`,
`tool_radius = 2`, `tilt = 45°`, `z_offset = 0`, machine step `k = 1`.
At that step point 0 is discarded by the off-axis filter, so the local
argmax index (0) and the contact point's original index (1) differ. -/

theorem c4_len : ([3, 1, 2, 2] : List ℝ).length = 4 := rfl

theorem c4_theta : Kin.thetaM 4 1 = π / 2 := by
  unfold Kin.thetaM; push_cast; ring

theorem c4_cosT : Real.cos (-(Kin.thetaM 4 1)) = 0 := by
  rw [c4_theta, Real.cos_neg, Real.cos_pi_div_two]

theorem c4_sinT : Real.sin (-(Kin.thetaM 4 1)) = -1 := by
  rw [c4_theta, Real.sin_neg, Real.sin_pi_div_two]

theorem c4_cos3pi2 : Real.cos (3 * π / 2) = 0 := by
  have h : 3 * π / 2 = π + π / 2 := by ring
  rw [h, Real.cos_add, Real.cos_pi, Real.sin_pi, Real.cos_pi_div_two]
  norm_num

theorem c4_sin3pi2 : Real.sin (3 * π / 2) = -1 := by
  have h : 3 * π / 2 = π + π / 2 := by ring
  rw [h, Real.sin_add, Real.cos_pi, Real.sin_pi, Real.sin_pi_div_two]
  norm_num

theorem c4_angle1 : Kin.angleLens 4 1 = π / 2 := by
  unfold Kin.angleLens; push_cast; ring

theorem c4_angle2 : Kin.angleLens 4 2 = π := by
  unfold Kin.angleLens; push_cast; ring

theorem c4_angle3 : Kin.angleLens 4 3 = 3 * π / 2 := by
  unfold Kin.angleLens; push_cast; ring

theorem c4_lX0 : Kin.lensX [3, 1, 2, 2] 0 = 3 := by
  show ([3, 1, 2, 2] : List ℝ).getD 0 0 * Real.cos (Kin.angleLens 4 0) = 3
  have h0 : Kin.angleLens 4 0 = 0 := by unfold Kin.angleLens; push_cast; ring
  rw [h0, Real.cos_zero]; norm_num [List.getD]

theorem c4_lX1 : Kin.lensX [3, 1, 2, 2] 1 = 0 := by
  show ([3, 1, 2, 2] : List ℝ).getD 1 0 * Real.cos (Kin.angleLens 4 1) = 0
  rw [c4_angle1, Real.cos_pi_div_two, mul_zero]

theorem c4_lX2 : Kin.lensX [3, 1, 2, 2] 2 = -2 := by
  show ([3, 1, 2, 2] : List ℝ).getD 2 0 * Real.cos (Kin.angleLens 4 2) = -2
  rw [c4_angle2, Real.cos_pi]; norm_num [List.getD]

theorem c4_lX3 : Kin.lensX [3, 1, 2, 2] 3 = 0 := by
  show ([3, 1, 2, 2] : List ℝ).getD 3 0 * Real.cos (Kin.angleLens 4 3) = 0
  rw [c4_angle3, c4_cos3pi2, mul_zero]

theorem c4_lY0 : Kin.lensY [3, 1, 2, 2] 0 = 0 := by
  show ([3, 1, 2, 2] : List ℝ).getD 0 0 * Real.sin (Kin.angleLens 4 0) = 0
  have h0 : Kin.angleLens 4 0 = 0 := by unfold Kin.angleLens; push_cast; ring
  rw [h0, Real.sin_zero, mul_zero]

theorem c4_lY1 : Kin.lensY [3, 1, 2, 2] 1 = 1 := by
  show ([3, 1, 2, 2] : List ℝ).getD 1 0 * Real.sin (Kin.angleLens 4 1) = 1
  rw [c4_angle1, Real.sin_pi_div_two]; norm_num [List.getD]

theorem c4_lY2 : Kin.lensY [3, 1, 2, 2] 2 = 0 := by
  show ([3, 1, 2, 2] : List ℝ).getD 2 0 * Real.sin (Kin.angleLens 4 2) = 0
  rw [c4_angle2, Real.sin_pi, mul_zero]

theorem c4_lY3 : Kin.lensY [3, 1, 2, 2] 3 = -2 := by
  show ([3, 1, 2, 2] : List ℝ).getD 3 0 * Real.sin (Kin.angleLens 4 3) = -2
  rw [c4_angle3, c4_sin3pi2]; norm_num [List.getD]

theorem c4_xRot (i : ℕ) : Kin.xRot [3, 1, 2, 2] 1 i = Kin.lensY [3, 1, 2, 2] i := by
  show Kin.lensX [3, 1, 2, 2] i * Real.cos (-(Kin.thetaM 4 1)) -
      Kin.lensY [3, 1, 2, 2] i * Real.sin (-(Kin.thetaM 4 1)) = _
  rw [c4_cosT, c4_sinT]; ring

theorem c4_yRot (i : ℕ) : Kin.yRot [3, 1, 2, 2] 1 i = -Kin.lensX [3, 1, 2, 2] i := by
  show Kin.lensX [3, 1, 2, 2] i * Real.sin (-(Kin.thetaM 4 1)) +
      Kin.lensY [3, 1, 2, 2] i * Real.cos (-(Kin.thetaM 4 1)) = _
  rw [c4_cosT, c4_sinT]; ring

theorem c4_validIdx : Kin.validIdx [3, 1, 2, 2] 2 1 = [1, 3] := by
  have h0 : ¬ Kin.validPt [3, 1, 2, 2] 2 1 0 := by
    unfold Kin.validPt
    rw [c4_yRot 0, c4_lX0]
    intro h
    rw [abs_lt] at h
    linarith [h.1]
  have h1 : Kin.validPt [3, 1, 2, 2] 2 1 1 := by
    unfold Kin.validPt
    rw [c4_yRot 1, c4_lX1]
    norm_num
  have h2 : ¬ Kin.validPt [3, 1, 2, 2] 2 1 2 := by
    unfold Kin.validPt
    rw [c4_yRot 2, c4_lX2]
    intro h
    rw [abs_lt] at h
    linarith [h.2]
  have h3 : Kin.validPt [3, 1, 2, 2] 2 1 3 := by
    unfold Kin.validPt
    rw [c4_yRot 3, c4_lX3]
    norm_num
  show (List.range 4).filter (fun i => decide (Kin.validPt [3, 1, 2, 2] 2 1 i)) = [1, 3]
  rw [show List.range 4 = [0, 1, 2, 3] from rfl]
  rw [List.filter_cons_of_neg (by simpa using h0),
    List.filter_cons_of_pos (by simpa using h1),
    List.filter_cons_of_neg (by simpa using h2),
    List.filter_cons_of_pos (by simpa using h3),
    List.filter_nil]

theorem c4_minorB : Kin.minorB 2 45 = Real.sqrt 2 := by
  unfold Kin.minorB deg2rad
  have h : (45 : ℝ) * π / 180 = π / 4 := by ring
  rw [h, Real.cos_pi_div_four]
  ring

theorem c4_tan : Real.tan (deg2rad 45) = 1 := by
  unfold deg2rad
  have h : (45 : ℝ) * π / 180 = π / 4 := by ring
  rw [h, Real.tan_pi_div_four]

theorem c4_xc1 : Kin.xCenter [3, 1, 2, 2] 2 45 1 1 = 1 + Real.sqrt 2 := by
  unfold Kin.xCenter
  rw [c4_xRot 1, c4_lY1, c4_yRot 1, c4_lX1, c4_minorB]
  norm_num

theorem c4_xc3 : Kin.xCenter [3, 1, 2, 2] 2 45 1 3 = -2 + Real.sqrt 2 := by
  unfold Kin.xCenter
  rw [c4_xRot 3, c4_lY3, c4_yRot 3, c4_lX3, c4_minorB]
  norm_num

theorem c4_xCenters :
    Kin.xCenters [3, 1, 2, 2] 2 45 1 = [1 + Real.sqrt 2, -2 + Real.sqrt 2] := by
  unfold Kin.xCenters
  rw [c4_validIdx, List.map_cons, List.map_cons, List.map_nil, c4_xc1, c4_xc3]

theorem c4_argmax : npArgmax [1 + Real.sqrt 2, -2 + Real.sqrt 2] = 0 := by
  rw [npArgmax]
  rw [if_neg (List.cons_ne_nil _ _)]
  rw [if_neg ?_]
  rw [npArgmax]
  rw [if_pos rfl]
  rw [List.getD_cons_zero]
  exact not_lt.mpr (by linarith [Real.sqrt_nonneg 2])

/-- C4 (code bug): at `radii = [3,1,2,2]`, `z_map = 0`, `tool_radius = 2`,
`tilt = 45°`, `z_offset = 0`, machine step 1, the source computes
`z = -(1 + √2)` because it reads `x_rot[max_idx_local]` (the filtered-local
index applied to the unfiltered array), while the claimed formula — using
the contact point's original index — yields `z = -√2`. -/
theorem kinematics_tilt_z_local_index_bug :
    (Kin.solve [3, 1, 2, 2] [0, 0, 0, 0] 2 45 0).zMachine.getD 1 0 = -(1 + Real.sqrt 2) ∧
      Kin.claimZ [3, 1, 2, 2] [0, 0, 0, 0] 2 45 0 1 = -Real.sqrt 2 ∧
      -(1 + Real.sqrt 2) ≠ -Real.sqrt 2 := by
  refine ⟨?_, ?_, by intro h; nlinarith [Real.sqrt_nonneg 2]⟩
  · rw [Kin.solve_zMachine_getD _ _ _ _ _ 1 (by rw [c4_len]; norm_num)]
    unfold Kin.stepXZ
    rw [if_neg (by rw [c4_validIdx]; exact List.cons_ne_nil _ _)]
    simp only [c4_xCenters, c4_argmax, c4_validIdx, c4_tan, List.getD_cons_zero,
      List.getD_cons_succ]
    rw [c4_xRot 0, c4_lY0]
    norm_num [List.getD]
  · unfold Kin.claimZ
    simp only [c4_xCenters, c4_argmax, c4_validIdx, c4_tan, List.getD_cons_zero,
      List.getD_cons_succ]
    rw [c4_xRot 1, c4_lY1]
    norm_num [List.getD]

/-! ## Movement Path Builder (`core/cam/movement_path.py`) -/

/-- The per-step coordinate/time arrays of an `OperationStep`. -/
structure PathArrays where
  x : List ℝ
  z : List ℝ
  theta : List ℝ
  time : List ℝ

/-- `OperationStep`.  In the source the four arrays default to `None` and are
always assigned together (the empty-kinematics branch of
`_generate_cutting_path` leaves them all `None`, every other constructor sets
all four), so they are embedded as one optional record. -/
structure OperationStep where
  operationType : String
  passIndex : ℕ := 0
  arrays : Option PathArrays := none
  speedMmPerSec : ℝ := 50
  feedRateSPerRev : ℝ := 10
  totalFrames : ℕ := 0

/-- One iteration of `MovementPath.get_full_path`'s loop: skip steps whose
`x is None`, otherwise append the arrays, re-basing the step's time array by
the running cumulative end-time and updating it to `adjusted_time[-1]`.
(The source indexes `[-1]`, so it needs a nonempty time array; `getLastD`
leaves the accumulator unchanged on the empty list the source would crash on.) -/
def fullPathStep (acc : PathArrays × ℝ) (s : OperationStep) : PathArrays × ℝ :=
  match s.arrays with
  | none => acc
  | some arr =>
    let adjusted := arr.time.map (fun t => t + acc.2)
    (⟨acc.1.x ++ arr.x, acc.1.z ++ arr.z, acc.1.theta ++ arr.theta,
      acc.1.time ++ adjusted⟩, adjusted.getLastD acc.2)

/-- `MovementPath.get_full_path`: concatenated `(x, z, theta, time)` view. -/
def getFullPath (steps : List OperationStep) : PathArrays :=
  (steps.foldl fullPathStep (⟨[], [], [], []⟩, 0)).1

/-- `_generate_cutting_path`: converts a kinematics solution to global
machine coordinates; the time axis is `linspace(0, total_time, len(x))` with
`total_time = (max θ / 360) · speed_s_per_rev` whenever `max θ > 0`. -/
def generateCuttingPath (kin : KinSolution) (wheelX wheelZ speedSPerRev speedMmPerSec : ℝ)
    (opType : String) (passIndex : ℕ) : OperationStep :=
  if kin.xMachine = [] then
    { operationType := opType, passIndex := passIndex }
  else
    { operationType := opType, passIndex := passIndex,
      arrays := some ⟨kin.xMachine.map (fun v => wheelX - v),
        kin.zMachine.map (fun v => wheelZ + v), kin.thetaMachineDeg,
        npLinspace 0
          (if npMax kin.thetaMachineDeg > 0 then
            npMax kin.thetaMachineDeg / 360 * speedSPerRev
          else (kin.thetaMachineDeg.length : ℝ) * speedSPerRev / 360)
          (kin.xMachine.map (fun v => wheelX - v)).length⟩,
      speedMmPerSec := speedMmPerSec, feedRateSPerRev := speedSPerRev,
      totalFrames := (kin.xMachine.map (fun v => wheelX - v)).length }

theorem getLastD_mem {α : Type} (l : List α) (h : l ≠ []) (d : α) : l.getLastD d ∈ l := by
  induction l with
  | nil => exact absurd rfl h
  | cons a t ih =>
    rcases eq_or_ne t [] with rfl | ht
    · simp
    · rw [List.getLastD_cons]
      rcases t with _ | ⟨b, u⟩
      · exact absurd rfl ht
      · exact List.mem_cons_of_mem _ (ih ht)

theorem getLastD_append {α : Type} (l1 l2 : List α) (h : l2 ≠ []) (d : α) :
    (l1 ++ l2).getLastD d = l2.getLastD d := by
  rw [List.getLastD_eq_getLast?, List.getLastD_eq_getLast?, List.getLast?_append,
    List.getLast?_eq_getLast l2 h]
  rfl

theorem getLastD_default_irrel {α : Type} (l : List α) (h : l ≠ []) (d d' : α) :
    l.getLastD d = l.getLastD d' := by
  rw [List.getLastD_eq_getLast?, List.getLastD_eq_getLast?, List.getLast?_eq_getLast l h]
  rfl

theorem sorted_headD_le (l : List ℝ) (hs : l.Sorted (· ≤ ·)) (t : ℝ) (ht : t ∈ l) :
    l.headD 0 ≤ t := by
  rcases l with _ | ⟨a, u⟩
  · cases ht
  · rcases List.mem_cons.mp ht with rfl | hu
    · simp
    · exact (List.sorted_cons.mp hs).1 t hu

theorem sorted_le_getLastD (l : List ℝ) (hs : l.Sorted (· ≤ ·)) (t : ℝ) (ht : t ∈ l) :
    t ≤ l.getLastD 0 := by
  induction l with
  | nil => cases ht
  | cons a u ih =>
    rcases eq_or_ne u [] with rfl | hu
    · simp only [List.mem_singleton] at ht
      simp [ht]
    · rw [List.getLastD_cons, getLastD_default_irrel u hu a 0]
      have hsu := (List.sorted_cons.mp hs).2
      rcases List.mem_cons.mp ht with rfl | hmem
      · exact (List.sorted_cons.mp hs).1 _ (getLastD_mem u hu 0)
      · exact ih hsu hmem

theorem headD_mem {α : Type} (l : List α) (h : l ≠ []) (d : α) : l.headD d ∈ l := by
  rcases l with _ | ⟨a, t⟩
  · exact absurd rfl h
  · simp

theorem getLastD_map (f : ℝ → ℝ) (l : List ℝ) (h : l ≠ []) (d : ℝ) :
    (l.map f).getLastD d = f (l.getLastD 0) := by
  rw [List.getLastD_eq_getLast?, List.getLast?_map, List.getLast?_eq_getLast l h,
    List.getLastD_eq_getLast?, List.getLast?_eq_getLast l h]
  rfl

theorem headD_map (f : ℝ → ℝ) (l : List ℝ) (h : l ≠ []) (d : ℝ) :
    (l.map f).headD d = f (l.headD 0) := by
  rcases l with _ | ⟨a, t⟩
  · exact absurd rfl h
  · rfl

/-- The steps `get_full_path` includes, each contributing its own final time
value (its duration). -/
def stepDurations (steps : List OperationStep) : List ℝ :=
  steps.filterMap (fun s => s.arrays.map (fun arr => arr.time.getLastD 0))

/-- A step as the spec describes it: if included, its own time array is
nonempty, starts at `0` and is non-decreasing. -/
def GoodStep (s : OperationStep) : Prop :=
  ∀ arr, s.arrays = some arr →
    arr.time ≠ [] ∧ arr.time.headD 0 = 0 ∧ arr.time.Sorted (· ≤ ·)

theorem fullPath_fold_invariant (steps : List OperationStep)
    (hgood : ∀ s ∈ steps, GoodStep s) :
    ∀ (acc : PathArrays × ℝ), acc.1.time.Sorted (· ≤ ·) →
      (∀ t ∈ acc.1.time, t ≤ acc.2) → acc.1.time.getLastD 0 = acc.2 →
      (steps.foldl fullPathStep acc).1.time.Sorted (· ≤ ·) ∧
        (∀ t ∈ (steps.foldl fullPathStep acc).1.time, t ≤ (steps.foldl fullPathStep acc).2) ∧
        (steps.foldl fullPathStep acc).2 = acc.2 + (stepDurations steps).sum ∧
        (steps.foldl fullPathStep acc).1.time.getLastD 0 = (steps.foldl fullPathStep acc).2 := by
  induction steps with
  | nil =>
    intro acc h1 h2 h3
    refine ⟨h1, h2, ?_, h3⟩
    simp [stepDurations]
  | cons s rest ih =>
    intro acc h1 h2 h3
    have hgs : GoodStep s := hgood s (List.mem_cons_self s rest)
    have hgrest : ∀ s2 ∈ rest, GoodStep s2 := fun s2 hs2 => hgood s2 (List.mem_cons_of_mem _ hs2)
    rcases harr : s.arrays with _ | arr
    · have hstep : fullPathStep acc s = acc := by
        unfold fullPathStep
        rw [harr]
      have hdur : stepDurations (s :: rest) = stepDurations rest := by
        unfold stepDurations
        rw [List.filterMap_cons, harr]
        rfl
      rw [List.foldl_cons, hstep, hdur]
      exact ih hgrest acc h1 h2 h3
    · obtain ⟨htne, hthead, htsorted⟩ := hgs arr harr
      set adjusted := arr.time.map (fun t => t + acc.2) with hadj
      have hadjne : adjusted ≠ [] := by
        rw [hadj]
        simpa [List.map_eq_nil_iff] using htne
      have hstep : fullPathStep acc s =
          (⟨acc.1.x ++ arr.x, acc.1.z ++ arr.z, acc.1.theta ++ arr.theta,
            acc.1.time ++ adjusted⟩, adjusted.getLastD acc.2) := by
        unfold fullPathStep
        rw [harr]
      have hadjsorted : adjusted.Sorted (· ≤ ·) := by
        rw [hadj]
        exact List.Pairwise.map _ (fun a b hab => by simpa using hab) htsorted
      have hadjge : ∀ y ∈ adjusted, acc.2 ≤ y := by
        intro y hy
        rw [hadj] at hy
        obtain ⟨t, htmem, rfl⟩ := List.mem_map.mp hy
        have := sorted_headD_le arr.time htsorted t htmem
        rw [hthead] at this
        linarith
      have hsorted' : (acc.1.time ++ adjusted).Sorted (· ≤ ·) := by
        rw [List.Sorted, List.pairwise_append]
        exact ⟨h1, hadjsorted, fun x hx y hy => le_trans (h2 x hx) (hadjge y hy)⟩
      have hlast' : (acc.1.time ++ adjusted).getLastD 0 = adjusted.getLastD acc.2 := by
        rw [getLastD_append _ _ hadjne, getLastD_default_irrel adjusted hadjne 0 acc.2]
      have hle' : ∀ t ∈ acc.1.time ++ adjusted, t ≤ adjusted.getLastD acc.2 := by
        intro t htmem
        rw [getLastD_default_irrel adjusted hadjne acc.2 0]
        rcases List.mem_append.mp htmem with hold | hnew
        · refine le_trans (h2 t hold) ?_
          have hh : acc.2 ∈ adjusted := by
            have := headD_mem adjusted hadjne 0
            rwa [hadj, headD_map _ _ htne, hthead, zero_add, ← hadj] at this
          exact sorted_le_getLastD adjusted hadjsorted _ hh
        · exact sorted_le_getLastD adjusted hadjsorted t hnew
      have hcum' : adjusted.getLastD acc.2 = acc.2 + arr.time.getLastD 0 := by
        rw [hadj, getLastD_map _ _ htne]
        ring
      have hdur : stepDurations (s :: rest) = arr.time.getLastD 0 :: stepDurations rest := by
        unfold stepDurations
        rw [List.filterMap_cons, harr]
        rfl
      rw [List.foldl_cons, hstep]
      obtain ⟨r1, r2, r3, r4⟩ := ih hgrest
        (⟨acc.1.x ++ arr.x, acc.1.z ++ arr.z, acc.1.theta ++ arr.theta,
          acc.1.time ++ adjusted⟩, adjusted.getLastD acc.2)
        hsorted' hle' (by rw [hlast'])
      refine ⟨r1, r2, ?_, r4⟩
      rw [r3, hdur, List.sum_cons, hcum']
      ring

/-- C6: `get_full_path` re-bases each included step's time array by the
cumulative end-time of all prior steps; for steps whose own time arrays start
at 0 and are non-decreasing, the resulting global time array is
non-decreasing and its last value equals the sum of the included steps'
own final time values (their durations). -/
theorem movement_path_concatenation_monotone (steps : List OperationStep)
    (hgood : ∀ s ∈ steps, GoodStep s) :
    (getFullPath steps).time.Sorted (· ≤ ·) ∧
      (getFullPath steps).time.getLastD 0 = (stepDurations steps).sum := by
  obtain ⟨r1, _, r3, r4⟩ := fullPath_fold_invariant steps hgood (⟨[], [], [], []⟩, 0)
    (by simp) (by simp) (by simp)
  refine ⟨r1, ?_⟩
  unfold getFullPath
  rw [r4, r3]
  ring

theorem movement_path_concatenation_monotone_witness :
    (∀ s ∈ [OperationStep.mk "home" 0 (some ⟨[1], [2], [3], [0]⟩) 50 10 1,
        OperationStep.mk "roughing" 1 (some ⟨[4, 5], [6, 7], [8, 9], [0, 2]⟩) 50 10 2],
      GoodStep s) ∧
    ((getFullPath [OperationStep.mk "home" 0 (some ⟨[1], [2], [3], [0]⟩) 50 10 1,
        OperationStep.mk "roughing" 1 (some ⟨[4, 5], [6, 7], [8, 9], [0, 2]⟩) 50 10 2]).time.Sorted (· ≤ ·) ∧
      (getFullPath [OperationStep.mk "home" 0 (some ⟨[1], [2], [3], [0]⟩) 50 10 1,
        OperationStep.mk "roughing" 1 (some ⟨[4, 5], [6, 7], [8, 9], [0, 2]⟩) 50 10 2]).time.getLastD 0 =
        (stepDurations [OperationStep.mk "home" 0 (some ⟨[1], [2], [3], [0]⟩) 50 10 1,
          OperationStep.mk "roughing" 1 (some ⟨[4, 5], [6, 7], [8, 9], [0, 2]⟩) 50 10 2]).sum) := by
  have hgood : ∀ s ∈ [OperationStep.mk "home" 0 (some ⟨[1], [2], [3], [0]⟩) 50 10 1,
      OperationStep.mk "roughing" 1 (some ⟨[4, 5], [6, 7], [8, 9], [0, 2]⟩) 50 10 2],
      GoodStep s := by
    intro s hs
    rcases List.mem_cons.mp hs with rfl | hs2
    · intro arr harr
      cases harr
      refine ⟨by simp, rfl, by simp⟩
    · rcases List.mem_cons.mp hs2 with rfl | hs3
      · intro arr harr
        cases harr
        refine ⟨by simp, rfl, ?_⟩
        simp [List.sorted_cons]
      · cases hs3
  exact ⟨hgood, movement_path_concatenation_monotone _ hgood⟩

/-- C9: for a cutting step built from a nonempty kinematics solution whose
maximum theta is positive, the step's time array is
`linspace(0, (max θ / 360) · speed_s_per_rev, N)` with `N` the number of
kinematics samples — spindle speed, not linear feed, fixes its duration. -/
theorem cutting_step_time_spindle_governed (kin : KinSolution)
    (wheelX wheelZ speedSPerRev speedMmPerSec : ℝ) (opType : String) (passIndex : ℕ)
    (hne : kin.xMachine ≠ []) (hpos : 0 < npMax kin.thetaMachineDeg) :
    (generateCuttingPath kin wheelX wheelZ speedSPerRev speedMmPerSec opType
        passIndex).arrays.map PathArrays.time =
      some (npLinspace 0 (npMax kin.thetaMachineDeg / 360 * speedSPerRev)
        kin.xMachine.length) ∧
      (npLinspace 0 (npMax kin.thetaMachineDeg / 360 * speedSPerRev)
        kin.xMachine.length).length = kin.xMachine.length := by
  constructor
  · unfold generateCuttingPath
    rw [if_neg hne, if_pos hpos, List.length_map]
    rfl
  · exact npLinspace_length _ _ _

theorem cutting_step_time_spindle_governed_witness :
    ((⟨[360], [5], [7]⟩ : KinSolution).xMachine ≠ [] ∧
        0 < npMax (⟨[360], [5], [7]⟩ : KinSolution).thetaMachineDeg) ∧
      ((generateCuttingPath ⟨[360], [5], [7]⟩ 1 2 10 50 "roughing" 1).arrays.map
          PathArrays.time =
        some (npLinspace 0 (npMax (⟨[360], [5], [7]⟩ : KinSolution).thetaMachineDeg / 360 * 10)
          (⟨[360], [5], [7]⟩ : KinSolution).xMachine.length) ∧
        (npLinspace 0 (npMax (⟨[360], [5], [7]⟩ : KinSolution).thetaMachineDeg / 360 * 10)
          (⟨[360], [5], [7]⟩ : KinSolution).xMachine.length).length =
          (⟨[360], [5], [7]⟩ : KinSolution).xMachine.length) := by
  have h1 : (⟨[360], [5], [7]⟩ : KinSolution).xMachine ≠ [] := by simp
  have h2 : (0 : ℝ) < npMax (⟨[360], [5], [7]⟩ : KinSolution).thetaMachineDeg := by
    show (0 : ℝ) < npMax [360]
    norm_num [npMax]
  exact ⟨⟨h1, h2⟩, cutting_step_time_spindle_governed _ 1 2 10 50 "roughing" 1 h1 h2⟩

/-! ## Voxel Material-Removal Simulator (`core/geometric/lens_volume.py`) -/

/-- `GrindingWheel` (`core/models/tools.py`), restricted to the fields the
simulator reads. -/
structure GrindingWheel where
  toolId : String
  cuttingRadius : ℝ
  stackZOffset : ℝ
  cuttingZRelative : ℝ

/-- `ToolStack` (`core/models/tools.py`). -/
structure ToolStack where
  tiltAngleDeg : ℝ
  basePosition : ℝ × ℝ × ℝ
  wheels : List GrindingWheel

/-- A `pass_segments` entry (`{'start_idx', 'end_idx', 'pass_index',
'operation_type', 'max_volume_rate'}`). -/
structure PassSegment where
  startIdx : ℕ
  endIdx : ℕ
  passIndex : ℕ := 0
  operationType : String := ""
  maxVolumeRate : Option ℝ := none

/-- The `tool_path` dict as the simulator reads it: `x`, `z`, `theta` are
only ever indexed pointwise (embedded as index functions); `num_steps` is
`len(tool_path['time'])`. -/
structure ToolPath where
  x : ℕ → ℝ
  z : ℕ → ℝ
  theta : ℕ → ℝ
  numSteps : ℕ
  passSegments : List PassSegment

/-- `profiles_data["bevel_std"]` after the source's `argsort` by axial
height; pairs are `(axial_height, radial_offset)`. -/
def bevelStdProfile : List (ℝ × ℝ) :=
  [(-9.045, 4.097), (-1.427, 1.604), (-0.371, 0), (1.427, 0.678), (9.045, -1.797)]

/-- `profiles_data["rough_glass"]`, sorted likewise. -/
def roughGlassProfile : List (ℝ × ℝ) := [(-9.51, 3.09), (9.51, -3.09)]

/-- `scipy.interpolate.interp1d(xs, ys, kind='linear', bounds_error=False,
fill_value=fill)` over breakpoints sorted by first component: piecewise
linear inside the covered range, `fill` outside it. -/
def interpLinear (fill : ℝ) : List (ℝ × ℝ) → ℝ → ℝ
  | [], _ => fill
  | [p], x => if x = p.1 then p.2 else fill
  | p :: q :: rest, x =>
    if x < p.1 then fill
    else if x ≤ q.1 then p.2 + (q.2 - p.2) * (x - p.1) / (q.1 - p.1)
    else interpLinear fill (q :: rest) x

/-- `profile_funcs`: interpolators for the wheels whose `tool_id` appears in
`profiles_data`, with fill value `-1e9`. -/
def profileFunc (toolId : String) : Option (ℝ → ℝ) :=
  if toolId = "bevel_std" then some (interpLinear (-1e9) bevelStdProfile)
  else if toolId = "rough_glass" then some (interpLinear (-1e9) roughGlassProfile)
  else none

namespace Voxel

/-- Physical x coordinate of column `ix`: `(arange(nx) - nx//2) * res`. -/
def coordX (nx : ℕ) (res : ℝ) (ix : ℕ) : ℝ := (((ix : ℤ) - (nx / 2 : ℕ) : ℤ) : ℝ) * res

/-- Physical y coordinate of row `iy`: `(arange(ny) - ny//2) * res`. -/
def coordY (ny : ℕ) (res : ℝ) (iy : ℕ) : ℝ := (((iy : ℤ) - (ny / 2 : ℕ) : ℤ) : ℝ) * res

/-- Physical z coordinate of slice `iz`: `arange(nz) * res`. -/
def coordZ (res : ℝ) (iz : ℕ) : ℝ := (iz : ℝ) * res

/-- The voxel's position in the lens frame; a voxel is addressed `(iz, iy, ix)`
following the `(Z, Y, X)` array shape. -/
def point (ny nx : ℕ) (res : ℝ) (v : ℕ × ℕ × ℕ) : ℝ × ℝ × ℝ :=
  (coordX nx res v.2.2, coordY ny res v.2.1, coordZ res v.1)

/-- `r_mach = base_position[0] - tool_path['x'][i]`. -/
def rMach (ts : ToolStack) (tp : ToolPath) (i : ℕ) : ℝ := ts.basePosition.1 - tp.x i

/-- `z_mach = base_position[2] - tool_path['z'][i]`. -/
def zMach (ts : ToolStack) (tp : ToolPath) (i : ℕ) : ℝ := ts.basePosition.2.2 - tp.z i

/-- `theta_lens = -radians(theta[i])`. -/
def thetaLens (tp : ToolPath) (i : ℕ) : ℝ := -(deg2rad (tp.theta i))

/-- `cos_t = cos(-theta_lens)`. -/
def cosT (tp : ToolPath) (i : ℕ) : ℝ := Real.cos (-(thetaLens tp i))

/-- `sin_t = sin(-theta_lens)`. -/
def sinT (tp : ToolPath) (i : ℕ) : ℝ := Real.sin (-(thetaLens tp i))

/-- `tool_axis_vec = [-sin(tilt), 0, cos(tilt)]`. -/
def toolAxis (ts : ToolStack) : ℝ × ℝ × ℝ :=
  (-Real.sin (deg2rad ts.tiltAngleDeg), 0, Real.cos (deg2rad ts.tiltAngleDeg))

/-- Tool origin in the lens frame: `[r·cos_t, r·sin_t, z]`. -/
def toolOrigin (ts : ToolStack) (tp : ToolPath) (i : ℕ) : ℝ × ℝ × ℝ :=
  (rMach ts tp i * cosT tp i, rMach ts tp i * sinT tp i, zMach ts tp i)

/-- The tool axis, rotated with the lens frame. -/
def axisRot (ts : ToolStack) (tp : ToolPath) (i : ℕ) : ℝ × ℝ × ℝ :=
  ((toolAxis ts).1 * cosT tp i - (toolAxis ts).2.1 * sinT tp i,
   (toolAxis ts).1 * sinT tp i + (toolAxis ts).2.1 * cosT tp i,
   (toolAxis ts).2.2)

/-- `h = V · axis` for voxel `v` at frame `i`. -/
def hVal (ts : ToolStack) (tp : ToolPath) (ny nx : ℕ) (res : ℝ) (i : ℕ)
    (v : ℕ × ℕ × ℕ) : ℝ :=
  ((point ny nx res v).1 - (toolOrigin ts tp i).1) * (axisRot ts tp i).1 +
    ((point ny nx res v).2.1 - (toolOrigin ts tp i).2.1) * (axisRot ts tp i).2.1 +
    ((point ny nx res v).2.2 - (toolOrigin ts tp i).2.2) * (axisRot ts tp i).2.2

/-- `d = sqrt(max(0, |V|² - h²))`. -/
def dVal (ts : ToolStack) (tp : ToolPath) (ny nx : ℕ) (res : ℝ) (i : ℕ)
    (v : ℕ × ℕ × ℕ) : ℝ :=
  Real.sqrt (max 0
    ((((point ny nx res v).1 - (toolOrigin ts tp i).1) ^ 2 +
      ((point ny nx res v).2.1 - (toolOrigin ts tp i).2.1) ^ 2 +
      ((point ny nx res v).2.2 - (toolOrigin ts tp i).2.2) ^ 2) -
      hVal ts tp ny nx res i v ^ 2))

/-- The first pass segment containing frame `i` selects the active wheel:
`wheels[0]` for `'roughing'`, `wheels[1]` otherwise. -/
def activeWheel (ts : ToolStack) (segs : List PassSegment) (i : ℕ) :
    Option GrindingWheel :=
  match segs.find? (fun s => decide (s.startIdx ≤ i ∧ i ≤ s.endIdx)) with
  | none => none
  | some s => if s.operationType = "roughing" then ts.wheels[0]? else ts.wheels[1]?

/-- The active wheel when it also has a profile interpolator; frames with no
usable wheel are skipped (`continue`). -/
def usableWheel (ts : ToolStack) (segs : List PassSegment) (i : ℕ) :
    Option GrindingWheel :=
  match activeWheel ts segs i with
  | none => none
  | some w => match profileFunc w.toolId with
    | none => none
    | some _ => some w

/-- The tool's surface radius at the voxel's height:
`cutting_radius + profile(eff_h)` with
`eff_h = h - (stack_z_offset + cutting_z_relative)`. -/
def surfRadius (ts : ToolStack) (tp : ToolPath) (ny nx : ℕ) (res : ℝ)
    (w : GrindingWheel) (i : ℕ) (v : ℕ × ℕ × ℕ) : ℝ :=
  w.cuttingRadius +
    ((profileFunc w.toolId).getD (fun _ => 0))
      (hVal ts tp ny nx res i v - (w.stackZOffset + w.cuttingZRelative))

/-- The scalar the frame writes for a voxel (before the `min`):
`1000 - ((1 - clip(d - r, -0.1, 0.1)/0.1)/2 · (num_steps - i + 0.5)) / num_steps · 1000`. -/
def frameScalar (ts : ToolStack) (tp : ToolPath) (ny nx : ℕ) (res : ℝ)
    (w : GrindingWheel) (i : ℕ) (v : ℕ × ℕ × ℕ) : ℝ :=
  1000 -
    (1 - min 0.1 (max (-0.1) (dVal ts tp ny nx res i v - surfRadius ts tp ny nx res w i v)) / 0.1) / 2 *
      ((tp.numSteps : ℝ) - (i : ℝ) + 0.5) / (tp.numSteps : ℝ) * 1000

/-- Frame `i` cuts voxel `v`: a usable wheel is active and the voxel lies
within the `0.1` tolerance band of the tool surface. -/
def cutsVoxel (ts : ToolStack) (tp : ToolPath) (ny nx : ℕ) (res : ℝ) (i : ℕ)
    (v : ℕ × ℕ × ℕ) : Prop :=
  match usableWheel ts tp.passSegments i with
  | none => False
  | some w => dVal ts tp ny nx res i v - surfRadius ts tp ny nx res w i v < 0.1

/-- The `min`-value a frame contributes for a voxel (its mapped frame value);
`1000` (inert) on skipped frames. -/
def mappedValue (ts : ToolStack) (tp : ToolPath) (ny nx : ℕ) (res : ℝ) (i : ℕ)
    (v : ℕ × ℕ × ℕ) : ℝ :=
  match usableWheel ts tp.passSegments i with
  | none => 1000
  | some w => frameScalar ts tp ny nx res w i v

/-- One processed frame of `compute_voxel_death_times`:
`death_times = minimum(death_times, current_step_times)` when a usable wheel
is active, unchanged (`continue`) otherwise. -/
def stepGrid (ts : ToolStack) (tp : ToolPath) (ny nx : ℕ) (res : ℝ) (i : ℕ)
    (g : ℕ × ℕ × ℕ → ℝ) : ℕ × ℕ × ℕ → ℝ :=
  match usableWheel ts tp.passSegments i with
  | none => g
  | some w => fun v => min (g v) (frameScalar ts tp ny nx res w i v)

/-- Folding the per-frame update over a list of frame indices. -/
def runFrames (ts : ToolStack) (tp : ToolPath) (ny nx : ℕ) (res : ℝ)
    (frames : List ℕ) (init : ℕ × ℕ × ℕ → ℝ) : ℕ × ℕ × ℕ → ℝ :=
  frames.foldl (fun g i => stepGrid ts tp ny nx res i g) init

/-- `range(0, num_steps, 5)`: the stride-sampled processed frames. -/
def processedFrames (numSteps : ℕ) : List ℕ :=
  (List.range numSteps).filter (fun i => i % 5 = 0)

/-- `compute_voxel_death_times` (the grid starts as the blank's scalars). -/
def computeVoxelDeathTimes (ts : ToolStack) (tp : ToolPath) (ny nx : ℕ)
    (res : ℝ) (init : ℕ × ℕ × ℕ → ℝ) : ℕ × ℕ × ℕ → ℝ :=
  runFrames ts tp ny nx res (processedFrames tp.numSteps) init

end Voxel

namespace Voxel

theorem frameScalar_of_not_cut (ts : ToolStack) (tp : ToolPath) (ny nx : ℕ)
    (res : ℝ) (w : GrindingWheel) (i : ℕ) (v : ℕ × ℕ × ℕ)
    (h : ¬ (dVal ts tp ny nx res i v - surfRadius ts tp ny nx res w i v < 0.1)) :
    frameScalar ts tp ny nx res w i v = 1000 := by
  unfold frameScalar
  push_neg at h
  rw [max_eq_right (by linarith : (-0.1 : ℝ) ≤ dVal ts tp ny nx res i v - surfRadius ts tp ny nx res w i v),
    min_eq_left h]
  norm_num

theorem runFrames_filter (ts : ToolStack) (tp : ToolPath) (ny nx : ℕ) (res : ℝ) :
    ∀ (frames : List ℕ) (g : ℕ × ℕ × ℕ → ℝ) (v : ℕ × ℕ × ℕ), g v ≤ 1000 →
      runFrames ts tp ny nx res frames g v =
        (frames.filter (fun i => decide (cutsVoxel ts tp ny nx res i v))).foldl
          (fun a i => min a (mappedValue ts tp ny nx res i v)) (g v) := by
  intro frames
  induction frames with
  | nil => intro g v _; rfl
  | cons i rest ih =>
    intro g v hg
    have hrun : runFrames ts tp ny nx res (i :: rest) g =
        runFrames ts tp ny nx res rest (stepGrid ts tp ny nx res i g) := rfl
    rcases husable : usableWheel ts tp.passSegments i with _ | w
    · have hstep : stepGrid ts tp ny nx res i g = g := by
        unfold stepGrid
        rw [husable]
      have hnocut : ¬ cutsVoxel ts tp ny nx res i v := by
        unfold cutsVoxel
        rw [husable]
        exact not_false
      rw [hrun, hstep, List.filter_cons_of_neg (by simpa using hnocut)]
      exact ih g v hg
    · have hstep : stepGrid ts tp ny nx res i g =
          fun v2 => min (g v2) (frameScalar ts tp ny nx res w i v2) := by
        unfold stepGrid
        rw [husable]
      have hmv : mappedValue ts tp ny nx res i v = frameScalar ts tp ny nx res w i v := by
        unfold mappedValue
        rw [husable]
      by_cases hcut : dVal ts tp ny nx res i v - surfRadius ts tp ny nx res w i v < 0.1
      · have hcut' : cutsVoxel ts tp ny nx res i v := by
          unfold cutsVoxel
          rw [husable]
          exact hcut
        have hacc : (fun v2 => min (g v2) (frameScalar ts tp ny nx res w i v2)) v =
            min (g v) (mappedValue ts tp ny nx res i v) := by
          show min (g v) (frameScalar ts tp ny nx res w i v) = _
          rw [hmv]
        have hrec : runFrames ts tp ny nx res rest
              (fun v2 => min (g v2) (frameScalar ts tp ny nx res w i v2)) v =
            List.foldl (fun a j => min a (mappedValue ts tp ny nx res j v))
              ((fun v2 => min (g v2) (frameScalar ts tp ny nx res w i v2)) v)
              (rest.filter (fun j => decide (cutsVoxel ts tp ny nx res j v))) :=
          ih _ v (le_trans (min_le_left _ _) hg)
        rw [hrun, hstep, List.filter_cons_of_pos (by simpa using hcut'), List.foldl_cons,
          hrec, hacc]
      · have hnocut : ¬ cutsVoxel ts tp ny nx res i v := by
          unfold cutsVoxel
          rw [husable]
          exact hcut
        have hsc : frameScalar ts tp ny nx res w i v = 1000 :=
          frameScalar_of_not_cut ts tp ny nx res w i v hcut
        have hgv : (fun v2 => min (g v2) (frameScalar ts tp ny nx res w i v2)) v = g v := by
          show min (g v) (frameScalar ts tp ny nx res w i v) = g v
          rw [hsc]
          exact min_eq_left hg
        have hrec : runFrames ts tp ny nx res rest
              (fun v2 => min (g v2) (frameScalar ts tp ny nx res w i v2)) v =
            List.foldl (fun a j => min a (mappedValue ts tp ny nx res j v))
              ((fun v2 => min (g v2) (frameScalar ts tp ny nx res w i v2)) v)
              (rest.filter (fun j => decide (cutsVoxel ts tp ny nx res j v))) :=
          ih _ v (le_trans (min_le_left _ _) hg)
        rw [hrun, hstep, List.filter_cons_of_neg (by simpa using hnocut), hrec, hgv]

theorem runFrames_append_le (ts : ToolStack) (tp : ToolPath) (ny nx : ℕ)
    (res : ℝ) (frames : List ℕ) (i : ℕ) (init : ℕ × ℕ × ℕ → ℝ) (v : ℕ × ℕ × ℕ) :
    runFrames ts tp ny nx res (frames ++ [i]) init v ≤
      runFrames ts tp ny nx res frames init v := by
  unfold runFrames
  rw [List.foldl_append, List.foldl_cons, List.foldl_nil]
  rcases husable : usableWheel ts tp.passSegments i with _ | w
  · have hstep : stepGrid ts tp ny nx res i (frames.foldl (fun g j => stepGrid ts tp ny nx res j g) init) =
        frames.foldl (fun g j => stepGrid ts tp ny nx res j g) init := by
      unfold stepGrid
      rw [husable]
    rw [hstep]
  · have hstep : stepGrid ts tp ny nx res i (frames.foldl (fun g j => stepGrid ts tp ny nx res j g) init) =
        fun v2 => min ((frames.foldl (fun g j => stepGrid ts tp ny nx res j g) init) v2)
          (frameScalar ts tp ny nx res w i v2) := by
      unfold stepGrid
      rw [husable]
    rw [hstep]
    exact min_le_left _ _

end Voxel

/-- C2: for a voxel whose initial scalar is at most the full-material ceiling
1000, one run of the simulator leaves exactly the minimum of the initial
value and the mapped frame values of the processed frames that cut the voxel
(each frame's update is `min(current, mappedFrameValue)`, and frames that do
not cut it contribute the inert value 1000); appending any further processed
frame can only lower the stored value, never raise it; and the simulation is
a pure fold, so re-running it on the same inputs yields an identical grid. -/
theorem voxel_death_frame_minimum (ts : ToolStack) (tp : ToolPath) (ny nx : ℕ)
    (res : ℝ) (init : ℕ × ℕ × ℕ → ℝ) (v : ℕ × ℕ × ℕ) (hinit : init v ≤ 1000) :
    Voxel.computeVoxelDeathTimes ts tp ny nx res init v =
      ((Voxel.processedFrames tp.numSteps).filter
          (fun i => decide (Voxel.cutsVoxel ts tp ny nx res i v))).foldl
        (fun a i => min a (Voxel.mappedValue ts tp ny nx res i v)) (init v) ∧
      (∀ (frames : List ℕ) (i : ℕ),
        Voxel.runFrames ts tp ny nx res (frames ++ [i]) init v ≤
          Voxel.runFrames ts tp ny nx res frames init v) ∧
      Voxel.computeVoxelDeathTimes ts tp ny nx res init =
        Voxel.computeVoxelDeathTimes ts tp ny nx res init :=
  ⟨Voxel.runFrames_filter ts tp ny nx res _ init v hinit,
    fun frames i => Voxel.runFrames_append_le ts tp ny nx res frames i init v, rfl⟩

theorem voxel_death_frame_minimum_witness :
    ((fun (_ : ℕ × ℕ × ℕ) => (1000 : ℝ)) (0, 0, 0) ≤ 1000) ∧
      (Voxel.computeVoxelDeathTimes ⟨0, (0, 0, 0), [⟨"rough_glass", 10, 0, 0⟩]⟩
          ⟨fun _ => 0, fun _ => 0, fun _ => 0, 1, [⟨0, 0, 0, "roughing", none⟩]⟩ 1 1 1
          (fun _ => 1000) (0, 0, 0) =
        ((Voxel.processedFrames 1).filter
            (fun i => decide (Voxel.cutsVoxel ⟨0, (0, 0, 0), [⟨"rough_glass", 10, 0, 0⟩]⟩
              ⟨fun _ => 0, fun _ => 0, fun _ => 0, 1, [⟨0, 0, 0, "roughing", none⟩]⟩ 1 1 1 i
              (0, 0, 0)))).foldl
          (fun a i => min a (Voxel.mappedValue ⟨0, (0, 0, 0), [⟨"rough_glass", 10, 0, 0⟩]⟩
            ⟨fun _ => 0, fun _ => 0, fun _ => 0, 1, [⟨0, 0, 0, "roughing", none⟩]⟩ 1 1 1 i
            (0, 0, 0))) 1000 ∧
        (∀ (frames : List ℕ) (i : ℕ),
          Voxel.runFrames ⟨0, (0, 0, 0), [⟨"rough_glass", 10, 0, 0⟩]⟩
              ⟨fun _ => 0, fun _ => 0, fun _ => 0, 1, [⟨0, 0, 0, "roughing", none⟩]⟩ 1 1 1
              (frames ++ [i]) (fun _ => 1000) (0, 0, 0) ≤
            Voxel.runFrames ⟨0, (0, 0, 0), [⟨"rough_glass", 10, 0, 0⟩]⟩
              ⟨fun _ => 0, fun _ => 0, fun _ => 0, 1, [⟨0, 0, 0, "roughing", none⟩]⟩ 1 1 1
              frames (fun _ => 1000) (0, 0, 0)) ∧
        Voxel.computeVoxelDeathTimes ⟨0, (0, 0, 0), [⟨"rough_glass", 10, 0, 0⟩]⟩
            ⟨fun _ => 0, fun _ => 0, fun _ => 0, 1, [⟨0, 0, 0, "roughing", none⟩]⟩ 1 1 1
            (fun _ => 1000) =
          Voxel.computeVoxelDeathTimes ⟨0, (0, 0, 0), [⟨"rough_glass", 10, 0, 0⟩]⟩
            ⟨fun _ => 0, fun _ => 0, fun _ => 0, 1, [⟨0, 0, 0, "roughing", none⟩]⟩ 1 1 1
            (fun _ => 1000)) :=
  ⟨le_refl _,
    voxel_death_frame_minimum ⟨0, (0, 0, 0), [⟨"rough_glass", 10, 0, 0⟩]⟩
      ⟨fun _ => 0, fun _ => 0, fun _ => 0, 1, [⟨0, 0, 0, "roughing", none⟩]⟩ 1 1 1
      (fun _ => 1000) (0, 0, 0) (le_refl _)⟩

/-! ## Removal rates and time rescaling
(`calculate_volume_removal_rates`, `adjust_time_array_for_volume_constraints`
in `core/geometric/lens_volume.py`, and the Dash callback
`adjust_timing_for_volume_constraints` in
`callbacks/removal_simulation_logic.py`). -/

/-- One `np.histogram` bin count with edges `arange(num+1)`: bin `k` is
`[k, k+1)` except the last bin `[num-1, num]` (numpy closes the right edge);
values outside `[0, num]` land in no bin. -/
def histCount (vals : List ℝ) (numFrames k : ℕ) : ℕ :=
  (vals.filter (fun v => decide ((k : ℝ) ≤ v ∧
    (v < (k : ℝ) + 1 ∨ (k + 1 = numFrames ∧ v ≤ (k : ℝ) + 1))))).length

/-- `death_frame_indices. = death/1000*num_frames`, keeping only voxels with
index `< num_frames` (the never-cut exclusion). -/
def deathFrameIndicesCut (deathTimes : List ℝ) (numFrames : ℕ) : List ℝ :=
  (deathTimes.map (fun d => d / 1000 * (numFrames : ℝ))).filter
    (fun v => decide (v < (numFrames : ℝ)))

/-- `volume_per_frame = histogram_counts * voxel_volume`. -/
def volumePerFrame (deathTimes : List ℝ) (numFrames : ℕ) (voxelVol : ℝ) : List ℝ :=
  (List.range numFrames).map
    (fun k => (histCount (deathFrameIndicesCut deathTimes numFrames) numFrames k : ℝ) * voxelVol)

/-- One override of the `max_allowed_rate` defaults: a segment whose
`max_volume_rate` is set and strictly positive assigns it on
`[start_idx, end_idx]`. -/
def applySegmentRate (f : ℕ → ℝ) (seg : PassSegment) : ℕ → ℝ :=
  match seg.maxVolumeRate with
  | some mv =>
    if mv > 0 then fun i => if seg.startIdx ≤ i ∧ i ≤ seg.endIdx then mv else f i
    else f
  | none => f

/-- The rate array after the override pass: default `100.0` everywhere, then
each segment's override in list order (later entries win on overlap). -/
def baseRate (segs : List PassSegment) : ℕ → ℝ :=
  segs.foldl applySegmentRate (fun _ => 100)

/-- Frame `i` lies inside some pass segment. -/
def covered (segs : List PassSegment) (i : ℕ) : Prop :=
  ∃ s ∈ segs, s.startIdx ≤ i ∧ i ≤ s.endIdx

/-- The source's forward-fill loop over frames `0..n-1`, carrying
`last_valid_rate` (initially `100.0`): an in-segment frame keeps its
override value and updates `last_valid_rate`; a frame outside every segment
is assigned `last_valid_rate`. -/
def fillLoop (segs : List PassSegment) (base : ℕ → ℝ) : ℕ → List ℝ × ℝ
  | 0 => ([], 100)
  | n + 1 =>
    if covered segs n then ((fillLoop segs base n).1 ++ [base n], base n)
    else ((fillLoop segs base n).1 ++ [(fillLoop segs base n).2], (fillLoop segs base n).2)

/-- The `max_allowed_rate` array of `calculate_volume_removal_rates`. -/
def maxAllowedRate (segs : List PassSegment) (numFrames : ℕ) : List ℝ :=
  (fillLoop segs (baseRate segs) numFrames).1

/-- The dict returned by `calculate_volume_removal_rates`. -/
structure RateInfo where
  frameIndices : List ℕ
  volumePerFrame : List ℝ
  maxAllowedRate : List ℝ

/-- `calculate_volume_removal_rates(death_times, time_array, voxel_volume,
pass_segments)`; only `len(time_array)` is read from the time array. -/
def calculateVolumeRemovalRates (deathTimes : List ℝ) (numFrames : ℕ)
    (voxelVol : ℝ) (segs : List PassSegment) : RateInfo where
  frameIndices := List.range numFrames
  volumePerFrame := volumePerFrame deathTimes numFrames voxelVol
  maxAllowedRate := maxAllowedRate segs numFrames

/-- The body of `adjust_time_array_for_volume_constraints`' loop at frame
`i ≥ 1`: keep the original `dt` unless the frame's actual removal rate
exceeds a strictly positive cap, in which case stretch the delta to
`volume/max_rate`. -/
def adjustStep (timeArr vol rate : List ℝ) (prevAdj : ℝ) (i : ℕ) : ℝ :=
  if (if timeArr.getD i 0 - timeArr.getD (i - 1) 0 > 0 then
        vol.getD i 0 / (timeArr.getD i 0 - timeArr.getD (i - 1) 0)
      else 0) > rate.getD i 0 ∧ rate.getD i 0 > 0 then
    prevAdj + vol.getD i 0 / rate.getD i 0
  else prevAdj + (timeArr.getD i 0 - timeArr.getD (i - 1) 0)

/-- `adjusted_time[i]`, each entry written from the previous one
(`adjusted_time[0] = 0`). -/
def adjustedTime (timeArr vol rate : List ℝ) : ℕ → ℝ
  | 0 => 0
  | i + 1 => adjustStep timeArr vol rate (adjustedTime timeArr vol rate i) (i + 1)

/-- `adjust_time_array_for_volume_constraints`. -/
def adjustTimeArray (timeArr vol rate : List ℝ) : List ℝ :=
  (List.range timeArr.length).map (adjustedTime timeArr vol rate)

/-- `np.allclose(a, b, rtol=1e-6)` (default `atol = 1e-8`). -/
def npAllclose (a b : List ℝ) : Prop :=
  a.length = b.length ∧
    ∀ i < a.length, |a.getD i 0 - b.getD i 0| ≤ 1e-8 + 1e-6 * |b.getD i 0|

/-- The Dash callback `adjust_timing_for_volume_constraints`, from the
`pass_segments` extraction onwards; `none` models `no_update` (the "original
time array unchanged" signal). -/
def adjustTimingForVolumeConstraints (deathTimes : List ℝ) (voxelVol : ℝ)
    (timeArr : List ℝ) (segs : List PassSegment) : Option (List ℝ) :=
  if segs = [] then none
  else if ∀ s ∈ segs, s.maxVolumeRate = none then none
  else if npAllclose
      (adjustTimeArray timeArr (volumePerFrame deathTimes timeArr.length voxelVol)
        (maxAllowedRate segs timeArr.length)) timeArr then none
  else some (adjustTimeArray timeArr (volumePerFrame deathTimes timeArr.length voxelVol)
    (maxAllowedRate segs timeArr.length))

theorem adjustStep_ge (timeArr vol rate : List ℝ) (prevAdj : ℝ) (i : ℕ) :
    prevAdj + (timeArr.getD i 0 - timeArr.getD (i - 1) 0) ≤
      adjustStep timeArr vol rate prevAdj i := by
  unfold adjustStep
  by_cases hc : (if timeArr.getD i 0 - timeArr.getD (i - 1) 0 > 0 then
        vol.getD i 0 / (timeArr.getD i 0 - timeArr.getD (i - 1) 0)
      else 0) > rate.getD i 0 ∧ rate.getD i 0 > 0
  · rw [if_pos hc]
    obtain ⟨hgt, hrate⟩ := hc
    by_cases hdt : timeArr.getD i 0 - timeArr.getD (i - 1) 0 > 0
    · rw [if_pos hdt] at hgt
      have hvol : vol.getD i 0 > rate.getD i 0 * (timeArr.getD i 0 - timeArr.getD (i - 1) 0) := by
        rw [gt_iff_lt, lt_div_iff hdt] at hgt
        linarith
      have : timeArr.getD i 0 - timeArr.getD (i - 1) 0 < vol.getD i 0 / rate.getD i 0 := by
        rw [lt_div_iff hrate]
        linarith [hvol]
      linarith
    · rw [if_neg hdt] at hgt
      exact absurd hrate (not_lt.mpr (le_of_lt hgt))
  · rw [if_neg hc]

theorem adjustedTime_ge (timeArr vol rate : List ℝ)
    (h0 : timeArr.getD 0 0 = 0) :
    ∀ i < timeArr.length, timeArr.getD i 0 ≤ adjustedTime timeArr vol rate i := by
  intro i
  induction i with
  | zero => intro _; rw [h0, adjustedTime]
  | succ j ih =>
    intro hj
    have hih := ih (Nat.lt_of_succ_lt hj)
    rw [adjustedTime]
    have := adjustStep_ge timeArr vol rate (adjustedTime timeArr vol rate j) (j + 1)
    have hsub : (j + 1) - 1 = j := Nat.succ_sub_one j
    rw [hsub] at this
    linarith

theorem adjustTimeArray_getD (timeArr vol rate : List ℝ) (i : ℕ) (hi : i < timeArr.length) :
    (adjustTimeArray timeArr vol rate).getD i 0 = adjustedTime timeArr vol rate i := by
  unfold adjustTimeArray
  simp [List.getD_eq_getElem?_getD, List.getElem?_map, List.getElem?_range, hi]

/-- C5: the time-axis rescaling never shortens the path — for a non-decreasing
time array starting at 0, the adjusted array is pointwise `≥` the original
(each delta is kept or stretched to `volume/max_rate`, never shrunk) — and
when no pass segment carries a `max_volume_rate` constraint the callback
signals `no_update` (the original time array is unchanged). -/
theorem rescaling_never_shortens_and_noop (timeArr vol rate deathTimes : List ℝ)
    (voxelVol : ℝ) (segs : List PassSegment)
    (h0 : timeArr.getD 0 0 = 0)
    (hmono : ∀ i, i + 1 < timeArr.length → timeArr.getD i 0 ≤ timeArr.getD (i + 1) 0) :
    (∀ i < timeArr.length,
        timeArr.getD i 0 ≤ (adjustTimeArray timeArr vol rate).getD i 0) ∧
      ((∀ s ∈ segs, s.maxVolumeRate = none) →
        adjustTimingForVolumeConstraints deathTimes voxelVol timeArr segs = none) := by
  constructor
  · intro i hi
    rw [adjustTimeArray_getD timeArr vol rate i hi]
    exact adjustedTime_ge timeArr vol rate h0 i hi
  · intro hnone
    unfold adjustTimingForVolumeConstraints
    rcases eq_or_ne segs [] with rfl | hne
    · rw [if_pos rfl]
    · rw [if_neg hne, if_pos hnone]

theorem rescaling_never_shortens_and_noop_witness :
    ((([0, 1] : List ℝ).getD 0 0 = 0) ∧
        (∀ i, i + 1 < ([0, 1] : List ℝ).length →
          ([0, 1] : List ℝ).getD i 0 ≤ ([0, 1] : List ℝ).getD (i + 1) 0)) ∧
      ((∀ i < ([0, 1] : List ℝ).length,
          ([0, 1] : List ℝ).getD i 0 ≤ (adjustTimeArray [0, 1] [0, 5] [100, 100]).getD i 0) ∧
        ((∀ s ∈ [PassSegment.mk 0 0 0 "roughing" none], s.maxVolumeRate = none) →
          adjustTimingForVolumeConstraints [] 1 [0, 1] [PassSegment.mk 0 0 0 "roughing" none] =
            none)) := by
  have h0 : ([0, 1] : List ℝ).getD 0 0 = 0 := rfl
  have hmono : ∀ i, i + 1 < ([0, 1] : List ℝ).length →
      ([0, 1] : List ℝ).getD i 0 ≤ ([0, 1] : List ℝ).getD (i + 1) 0 := by
    intro i hi
    have hl : ([0, 1] : List ℝ).length = 2 := rfl
    rw [hl] at hi
    have hi0 : i = 0 := by omega
    subst hi0
    norm_num [List.getD]
  exact ⟨⟨h0, hmono⟩,
    rescaling_never_shortens_and_noop [0, 1] [0, 5] [100, 100] [] 1
      [PassSegment.mk 0 0 0 "roughing" none] h0 hmono⟩

/-- The rate rule the source actually implements, stated recursively
(refinement target for the amended C10): an in-segment frame takes the
override array's value; a frame outside every segment inherits the most
recent in-segment frame's value, `100` when no in-segment frame precedes. -/
def specRate (segs : List PassSegment) : ℕ → ℝ
  | 0 => if covered segs 0 then baseRate segs 0 else 100
  | i + 1 => if covered segs (i + 1) then baseRate segs (i + 1) else specRate segs i

theorem specRate_of_covered (segs : List PassSegment) (n : ℕ) (h : covered segs n) :
    specRate segs n = baseRate segs n := by
  cases n with
  | zero => rw [specRate, if_pos h]
  | succ m => rw [specRate, if_pos h]

theorem specRate_of_not_covered (segs : List PassSegment) (n : ℕ) (h : ¬ covered segs n) :
    specRate segs n = if n = 0 then 100 else specRate segs (n - 1) := by
  cases n with
  | zero => rw [specRate, if_neg h, if_pos rfl]
  | succ m => rw [specRate, if_neg h, if_neg (Nat.succ_ne_zero m), Nat.succ_sub_one]

theorem fillLoop_spec (segs : List PassSegment) :
    ∀ n, (fillLoop segs (baseRate segs) n).1 = (List.range n).map (specRate segs) ∧
      (fillLoop segs (baseRate segs) n).2 = (if n = 0 then 100 else specRate segs (n - 1)) := by
  intro n
  induction n with
  | zero => exact ⟨by simp [fillLoop], by simp [fillLoop]⟩
  | succ m ih =>
    rw [fillLoop]
    by_cases hc : covered segs m
    · rw [if_pos hc]
      refine ⟨?_, ?_⟩
      · rw [ih.1, List.range_succ, List.map_append, List.map_cons, List.map_nil,
          specRate_of_covered segs m hc]
      · rw [if_neg (Nat.succ_ne_zero m), Nat.succ_sub_one, specRate_of_covered segs m hc]
    · rw [if_neg hc]
      refine ⟨?_, ?_⟩
      · rw [ih.1, ih.2, List.range_succ, List.map_append, List.map_cons, List.map_nil,
          specRate_of_not_covered segs m hc]
      · rw [ih.2, if_neg (Nat.succ_ne_zero m), Nat.succ_sub_one,
          specRate_of_not_covered segs m hc]

theorem maxAllowedRate_getD (segs : List PassSegment) (numFrames i : ℕ)
    (h : i < numFrames) :
    (maxAllowedRate segs numFrames).getD i 0 = specRate segs i := by
  unfold maxAllowedRate
  rw [(fillLoop_spec segs numFrames).1]
  simp [List.getD_eq_getElem?_getD, List.getElem?_map, List.getElem?_range, h]

theorem baseRate_not_overridden (segs : List PassSegment) (i : ℕ)
    (h : ∀ s ∈ segs, ¬(s.startIdx ≤ i ∧ i ≤ s.endIdx ∧
      ∃ mv, s.maxVolumeRate = some mv ∧ 0 < mv)) :
    baseRate segs i = 100 := by
  have happ : ∀ (f : ℕ → ℝ) (s : PassSegment),
      ¬(s.startIdx ≤ i ∧ i ≤ s.endIdx ∧ ∃ mv, s.maxVolumeRate = some mv ∧ 0 < mv) →
      applySegmentRate f s i = f i := by
    intro f s hs
    unfold applySegmentRate
    rcases hmv : s.maxVolumeRate with _ | mv
    · rfl
    · show (if mv > 0 then
          fun j => if s.startIdx ≤ j ∧ j ≤ s.endIdx then mv else f j
        else f) i = f i
      by_cases hpos : mv > 0
      · rw [if_pos hpos]
        have hni : ¬(s.startIdx ≤ i ∧ i ≤ s.endIdx) := by
          intro hin
          exact hs ⟨hin.1, hin.2, mv, hmv, hpos⟩
        show (if s.startIdx ≤ i ∧ i ≤ s.endIdx then mv else f i) = f i
        rw [if_neg hni]
      · rw [if_neg hpos]
  have aux : ∀ (l : List PassSegment) (f : ℕ → ℝ),
      (∀ s ∈ l, ¬(s.startIdx ≤ i ∧ i ≤ s.endIdx ∧
        ∃ mv, s.maxVolumeRate = some mv ∧ 0 < mv)) →
      (l.foldl applySegmentRate f) i = f i := by
    intro l
    induction l with
    | nil => intro f _; rfl
    | cons s rest ihl =>
      intro f hl
      rw [List.foldl_cons]
      rw [ihl (applySegmentRate f s)
        (fun s2 hs2 => hl s2 (List.mem_cons_of_mem _ hs2))]
      exact happ f s (hl s (List.mem_cons_self s rest))
  exact aux segs (fun _ => 100) h

/-- C10 as stated is false: with a single roughing segment covering only
frame 0 and carrying a 50 mm³/s cap, frame 1 — outside every segment — is
assigned the forward-filled 50 mm³/s, not the claimed 100 mm³/s default. -/
theorem volume_rate_gap_counterexample :
    (calculateVolumeRemovalRates [] 2 1
        [PassSegment.mk 0 0 0 "roughing" (some 50)]).maxAllowedRate.getD 1 0 = 50 ∧
      ¬ ((calculateVolumeRemovalRates [] 2 1
        [PassSegment.mk 0 0 0 "roughing" (some 50)]).maxAllowedRate.getD 1 0 = 100) := by
  have hc0 : covered [PassSegment.mk 0 0 0 "roughing" (some 50)] 0 :=
    ⟨PassSegment.mk 0 0 0 "roughing" (some 50), List.mem_singleton_self _,
      le_refl 0, le_refl 0⟩
  have hc1 : ¬ covered [PassSegment.mk 0 0 0 "roughing" (some 50)] 1 := by
    rintro ⟨s, hs, h1, h2⟩
    rw [List.mem_singleton] at hs
    subst hs
    exact absurd h2 (by norm_num)
  have hbase : baseRate [PassSegment.mk 0 0 0 "roughing" (some 50)] 0 = 50 := by
    unfold baseRate
    rw [List.foldl_cons, List.foldl_nil]
    unfold applySegmentRate
    show (if (50 : ℝ) > 0 then
        fun j => if 0 ≤ j ∧ j ≤ 0 then (50 : ℝ) else (fun _ => (100 : ℝ)) j
      else fun _ => (100 : ℝ)) 0 = 50
    rw [if_pos (by norm_num : (50 : ℝ) > 0)]
    show (if 0 ≤ 0 ∧ 0 ≤ 0 then (50 : ℝ) else 100) = 50
    rw [if_pos ⟨le_refl 0, le_refl 0⟩]
  have hval : (calculateVolumeRemovalRates [] 2 1
      [PassSegment.mk 0 0 0 "roughing" (some 50)]).maxAllowedRate.getD 1 0 = 50 := by
    show (maxAllowedRate [PassSegment.mk 0 0 0 "roughing" (some 50)] 2).getD 1 0 = 50
    rw [maxAllowedRate_getD _ 2 1 (by norm_num), specRate, if_neg hc1, specRate,
      if_pos hc0, hbase]
  exact ⟨hval, by rw [hval]; norm_num⟩

/-- C10 amended: every frame's rate defaults to 100 mm³/s and a segment's
`max_volume_rate` overrides it on the segment's index range only when set
and strictly positive (frames of capless segments keep 100); but a frame
outside every segment receives the most recent in-segment frame's rate
(forward fill) — 100 only when no in-segment frame precedes it. -/
theorem volume_rate_default_override_forward_fill (deathTimes : List ℝ)
    (voxelVol : ℝ) (segs : List PassSegment) (numFrames i : ℕ) (h : i < numFrames) :
    (calculateVolumeRemovalRates deathTimes numFrames voxelVol segs).maxAllowedRate.getD i 0 =
        specRate segs i ∧
      ((∀ s ∈ segs, ¬(s.startIdx ≤ i ∧ i ≤ s.endIdx ∧
          ∃ mv, s.maxVolumeRate = some mv ∧ 0 < mv)) →
        baseRate segs i = 100) :=
  ⟨maxAllowedRate_getD segs numFrames i h, baseRate_not_overridden segs i⟩

theorem volume_rate_default_override_forward_fill_witness :
    (0 < 1) ∧
      ((calculateVolumeRemovalRates [] 1 1 []).maxAllowedRate.getD 0 0 = specRate [] 0 ∧
        ((∀ s ∈ ([] : List PassSegment), ¬(s.startIdx ≤ 0 ∧ 0 ≤ s.endIdx ∧
            ∃ mv, s.maxVolumeRate = some mv ∧ 0 < mv)) →
          baseRate [] 0 = 100)) :=
  ⟨Nat.zero_lt_one, volume_rate_default_override_forward_fill [] 1 [] 1 0 Nat.zero_lt_one⟩

/-! ## Roughing Contour Generator (`core/geometric/roughing_generation.py`) -/

/-- Python `round` to an integer: round half to even. -/
def roundHalfEven (x : ℝ) : ℤ :=
  if Int.fract x = 1 / 2 then (if Even ⌊x⌋ then ⌊x⌋ else ⌊x⌋ + 1) else round x

/-- Python `round(x, 2)`. -/
def pyRound2 (x : ℝ) : ℝ := ((roundHalfEven (100 * x) : ℤ) : ℝ) / 100

theorem abs_roundHalfEven_sub (y : ℝ) : |(roundHalfEven y : ℝ) - y| ≤ 1 / 2 := by
  unfold roundHalfEven
  by_cases htie : Int.fract y = 1 / 2
  · have hfloor : (⌊y⌋ : ℝ) = y - 1 / 2 := by
      have := Int.fract_add_floor y
      rw [htie] at this
      linarith
    by_cases heven : Even ⌊y⌋
    · rw [if_pos htie, if_pos heven, hfloor]
      rw [abs_of_nonpos (by linarith)]
      linarith
    · rw [if_pos htie, if_neg heven]
      push_cast
      rw [hfloor]
      rw [abs_of_nonneg (by linarith)]
      linarith
  · rw [if_neg htie]
    rw [abs_sub_comm]
    exact abs_sub_round y

theorem roundHalfEven_nonneg (y : ℝ) (hy : 0 ≤ y) : 0 ≤ (roundHalfEven y : ℤ) := by
  unfold roundHalfEven
  by_cases htie : Int.fract y = 1 / 2
  · have hfloor : (⌊y⌋ : ℝ) = y - 1 / 2 := by
      have := Int.fract_add_floor y
      rw [htie] at this
      linarith
    have hgt : (-1 : ℝ) < (⌊y⌋ : ℝ) := by
      rw [hfloor]
      linarith
    have hf : (-1 : ℤ) < ⌊y⌋ := by exact_mod_cast hgt
    by_cases heven : Even ⌊y⌋
    · rw [if_pos htie, if_pos heven]
      omega
    · rw [if_pos htie, if_neg heven]
      omega
  · rw [if_neg htie]
    rw [round_eq]
    exact Int.floor_nonneg.mpr (by linarith)

theorem abs_pyRound2_sub (x : ℝ) : |pyRound2 x - x| ≤ 1 / 200 := by
  unfold pyRound2
  rw [show ((roundHalfEven (100 * x) : ℤ) : ℝ) / 100 - x =
      (((roundHalfEven (100 * x) : ℤ) : ℝ) - 100 * x) / 100 from by ring]
  rw [abs_div, abs_of_nonneg (by norm_num : (0 : ℝ) ≤ 100)]
  have h := abs_roundHalfEven_sub (100 * x)
  linarith

theorem pyRound2_nonneg (x : ℝ) (hx : 0 ≤ x) : 0 ≤ pyRound2 x := by
  unfold pyRound2
  have h := roundHalfEven_nonneg (100 * x) (by linarith)
  have : (0 : ℝ) ≤ ((roundHalfEven (100 * x) : ℤ) : ℝ) := by exact_mod_cast h
  linarith

namespace Rough

/-- Cartesian point of sample `i` of a polar profile
(`angles = linspace(0, 2π, n, endpoint=False)`). -/
def pt (radii : List ℝ) (i : ℕ) : ℝ × ℝ :=
  (radii.getD i 0 * Real.cos (2 * π * i / radii.length),
   radii.getD i 0 * Real.sin (2 * π * i / radii.length))

/-- Modelled external collaborator `scipy.spatial.ConvexHull(points).vertices`
(spec §4.2's 2-D hull step): index `i` is a hull vertex iff its point is an
extreme point of the point set.  The source `argsort`s the hull vertices by
angle immediately afterwards and sample angles grow with the index, so only
the vertex *set* matters; it is embedded already in angular (= index) order. -/
def isHullVertex (radii : List ℝ) (i : ℕ) : Prop :=
  pt radii i ∉ convexHull ℝ {q : ℝ × ℝ | ∃ j < radii.length, j ≠ i ∧ q = pt radii j}

/-- `hull.vertices`, sorted by angle. -/
def hullIndices (radii : List ℝ) : List ℕ :=
  (List.range radii.length).filter (fun i => decide (isHullVertex radii i))

/-- `ConvexHull` raises (`QhullError`) on degenerate input — fewer than 3
points or all points on one line — and the source then falls back to the
unmodified profile. -/
def degenerateHull (radii : List ℝ) : Prop :=
  radii.length < 3 ∨ Collinear ℝ {q : ℝ × ℝ | ∃ j < radii.length, q = pt radii j}

/-- `hull_angles` after sorting, with the closing wrap entry
`hull_angles[0] + 2π` appended. -/
def closedHullAngles (radii : List ℝ) : List ℝ :=
  ((hullIndices radii).map (fun (i : ℕ) => 2 * π * (i : ℝ) / radii.length)) ++
    [((hullIndices radii).map (fun (i : ℕ) => 2 * π * (i : ℝ) / radii.length)).headD 0 + 2 * π]

/-- `hull_radii` after sorting, with the first entry appended to close the
loop. -/
def closedHullRadii (radii : List ℝ) : List ℝ :=
  ((hullIndices radii).map (fun i => radii.getD i 0)) ++
    [((hullIndices radii).map (fun i => radii.getD i 0)).headD 0]

/-- The segment-pointer advance: `while current_hull_idx < max_hull_idx and
theta > hull_angles[current_hull_idx + 1]: current_hull_idx += 1`. -/
def advance (ha : List ℝ) (maxIdx : ℕ) (θ : ℝ) (idx : ℕ) : ℕ :=
  if h : idx < maxIdx ∧ θ > ha.getD (idx + 1) 0 then advance ha maxIdx θ (idx + 1) else idx
termination_by maxIdx - idx
decreasing_by exact Nat.sub_lt_sub_left h.1 (Nat.lt_succ_self idx)

/-- Cartesian coordinates of the current hull edge's endpoints. -/
def edgeP1x (ha hr : List ℝ) (idx : ℕ) : ℝ := hr.getD idx 0 * Real.cos (ha.getD idx 0)

def edgeP1y (ha hr : List ℝ) (idx : ℕ) : ℝ := hr.getD idx 0 * Real.sin (ha.getD idx 0)

def edgeP2x (ha hr : List ℝ) (idx : ℕ) : ℝ :=
  hr.getD (idx + 1) 0 * Real.cos (ha.getD (idx + 1) 0)

def edgeP2y (ha hr : List ℝ) (idx : ℕ) : ℝ :=
  hr.getD (idx + 1) 0 * Real.sin (ha.getD (idx + 1) 0)

/-- Denominator of the ray/line intersection at output angle `θ`. -/
def rayDenom (ha hr : List ℝ) (idx : ℕ) (θ : ℝ) : ℝ :=
  (edgeP2y ha hr idx - edgeP1y ha hr idx) * Real.cos θ -
    (edgeP2x ha hr idx - edgeP1x ha hr idx) * Real.sin θ

/-- Numerator (`p1x*p2y - p1y*p2x`). -/
def rayNumer (ha hr : List ℝ) (idx : ℕ) : ℝ :=
  edgeP1x ha hr idx * edgeP2y ha hr idx - edgeP1y ha hr idx * edgeP2x ha hr idx

/-- One resampled radius: the ray at the output angle intersected with the
*line* through the current hull edge's endpoints; a near-parallel denominator
(`< 1e-9`) falls back to the proposed radius. -/
def resampleOne (ha hr radii : List ℝ) (idx i : ℕ) : ℝ :=
  if |rayDenom ha hr idx (2 * π * i / radii.length)| < 1e-9 then radii.getD i 0
  else rayNumer ha hr idx / rayDenom ha hr idx (2 * π * i / radii.length)

/-- The resampling loop over output angles `0..k-1`, carrying the persistent
segment pointer `current_hull_idx`. -/
def resampleLoop (ha hr radii : List ℝ) : ℕ → ℕ × List ℝ
  | 0 => (0, [])
  | i + 1 =>
    (advance ha (ha.length - 2) (2 * π * i / radii.length) (resampleLoop ha hr radii i).1,
     (resampleLoop ha hr radii i).2 ++
       [resampleOne ha hr radii
         (advance ha (ha.length - 2) (2 * π * i / radii.length) (resampleLoop ha hr radii i).1) i])

/-- `get_convex_radii`. -/
def getConvexRadii (radii : List ℝ) : List ℝ :=
  if degenerateHull radii then radii
  else (resampleLoop (closedHullAngles radii) (closedHullRadii radii) radii radii.length).2

/-- `RoughingPassParam` (one row of the pass table). -/
structure RoughPass where
  stepValueMm : ℝ
  speedSPerRev : ℝ

/-- `RoughingPassData` restricted to the fields the generator computes from
the profile (the mesh is visualization payload for the excluded UI layer). -/
structure RoughPassData where
  passIndex : ℕ
  radii : List ℝ
  volume : ℝ
  duration : ℝ

/-- `_create_pass_data`: `vol` abstracts the external closed-surface volume
utility (`calculate_mesh_volume ∘ generate_lens_mesh`, trimesh-based; spec §6
"consumed, not defined here") at the run's fixed curvatures and thickness.
Returns the pass record — with the removed volume `round(·, 2)`-ed — and the
new current volume. -/
def createPassData (vol : List ℝ → ℝ) (index : ℕ) (radii : List ℝ)
    (prevVol speed : ℝ) : RoughPassData × ℝ :=
  (⟨index, radii, pyRound2 (max 0 (prevVol - vol radii)), speed⟩, vol radii)

/-- Mutable state of the generator's main loop. -/
structure RoughState where
  results : List RoughPassData
  currentRadii : List ℝ
  virtualCircleRadius : ℝ
  currentVolume : ℝ

/-- The proposed-then-hull-corrected contour of one pass.  CONCENTRIC:
`max(final, virtual - step)` then hull; INTERPOLATION: move toward the target
by fraction `t` measured at the 12-o'clock sample (`idx = n∕4`), clamp to the
target, then hull; any other method leaves the contour unchanged. -/
def newRadiiFor (finalRadii : List ℝ) (method : String) (st : RoughState)
    (op : RoughPass) : List ℝ :=
  if method = "CONCENTRIC" then
    getConvexRadii (finalRadii.map (fun r => max r (st.virtualCircleRadius - op.stepValueMm)))
  else if method = "INTERPOLATION" then
    getConvexRadii (List.zipWith max finalRadii
      (List.zipWith
        (fun c f => c -
          (if st.currentRadii.getD (finalRadii.length / 4) 0 -
              finalRadii.getD (finalRadii.length / 4) 0 ≤ 0 then 1
           else min (op.stepValueMm /
              (st.currentRadii.getD (finalRadii.length / 4) 0 -
                finalRadii.getD (finalRadii.length / 4) 0)) 1) * (c - f))
        st.currentRadii finalRadii))
  else st.currentRadii

/-- One iteration of the generator's main loop (`enumerate(operations)`). -/
def roughingStep (vol : List ℝ → ℝ) (finalRadii : List ℝ) (method : String)
    (st : RoughState) (iop : ℕ × RoughPass) : RoughState :=
  ⟨st.results ++ [(createPassData vol (iop.1 + 1) (newRadiiFor finalRadii method st iop.2)
      st.currentVolume iop.2.speedSPerRev).1],
   newRadiiFor finalRadii method st iop.2,
   if method = "CONCENTRIC" then st.virtualCircleRadius - iop.2.stepValueMm
   else st.virtualCircleRadius,
   (createPassData vol (iop.1 + 1) (newRadiiFor finalRadii method st iop.2)
      st.currentVolume iop.2.speedSPerRev).2⟩

/-- The state after the main loop: the blank starts as a constant profile at
`blank_radius`, and the initial volume is that of the circular blank (the
scalar branch of `generate_lens_mesh` meshes it at 360 angular samples). -/
def loopState (vol : List ℝ → ℝ) (finalRadii : List ℝ) (blankRadius : ℝ)
    (method : String) (passes : List RoughPass) : RoughState :=
  passes.enum.foldl (roughingStep vol finalRadii method)
    ⟨[], List.replicate finalRadii.length blankRadius, blankRadius,
      vol (List.replicate 360 blankRadius)⟩

/-- `generate_roughing_operations`: the configured passes, then — when the
last contour still exceeds the target by more than 0.001 mm at some sample —
one finishing pass carrying the exact target radii (no hull correction). -/
def generateRoughingOperations (vol : List ℝ → ℝ) (finalRadii : List ℝ)
    (blankRadius : ℝ) (method : String) (passes : List RoughPass) :
    List RoughPassData :=
  if npMax (List.zipWith (fun c f => c - f)
      (loopState vol finalRadii blankRadius method passes).currentRadii finalRadii) > 0.001 then
    (loopState vol finalRadii blankRadius method passes).results ++
      [(createPassData vol ((loopState vol finalRadii blankRadius method passes).results.length + 1)
        finalRadii (loopState vol finalRadii blankRadius method passes).currentVolume
        (((passes.getLast?).map RoughPass.speedSPerRev).getD 10)).1]
  else (loopState vol finalRadii blankRadius method passes).results

end Rough

namespace Rough

/-- The reported pass volumes are the `round(·,2)`-ed, `max 0`-truncated
consecutive differences of the mesh-volume chain starting at `v`. -/
def IsRoundedDiffChain (vol : List ℝ → ℝ) : ℝ → List RoughPassData → Prop
  | _, [] => True
  | v, p :: rest => p.volume = pyRound2 (max 0 (v - vol p.radii)) ∧
      IsRoundedDiffChain vol (vol p.radii) rest

/-- The last mesh volume of the chain starting at `v`. -/
def lastVol (vol : List ℝ → ℝ) : ℝ → List RoughPassData → ℝ
  | v, [] => v
  | _, p :: rest => lastVol vol (vol p.radii) rest

/-- The mesh-volume chain starting at `v` is non-increasing. -/
def VolNonincreasing (vol : List ℝ → ℝ) : ℝ → List RoughPassData → Prop
  | _, [] => True
  | v, p :: rest => vol p.radii ≤ v ∧ VolNonincreasing vol (vol p.radii) rest

theorem lastVol_append (vol : List ℝ → ℝ) (rs : List RoughPassData) :
    ∀ (v : ℝ) (p : RoughPassData), lastVol vol v (rs ++ [p]) = vol p.radii := by
  induction rs with
  | nil => intro v p; rfl
  | cons q rest ih =>
    intro v p
    rw [List.cons_append]
    show lastVol vol (vol q.radii) (rest ++ [p]) = vol p.radii
    exact ih (vol q.radii) p

theorem isRoundedDiffChain_append (vol : List ℝ → ℝ) (rs : List RoughPassData) :
    ∀ (v : ℝ) (p : RoughPassData),
      IsRoundedDiffChain vol v rs →
      p.volume = pyRound2 (max 0 (lastVol vol v rs - vol p.radii)) →
      IsRoundedDiffChain vol v (rs ++ [p]) := by
  induction rs with
  | nil => intro v p _ hp; exact ⟨hp, trivial⟩
  | cons q rest ih =>
    intro v p hchain hp
    obtain ⟨hq, hrest⟩ := hchain
    exact ⟨hq, ih (vol q.radii) p hrest hp⟩

theorem chain_volume_nonneg (vol : List ℝ → ℝ) (rs : List RoughPassData) :
    ∀ (v : ℝ), IsRoundedDiffChain vol v rs → ∀ p ∈ rs, 0 ≤ p.volume := by
  induction rs with
  | nil => intro v _ p hp; cases hp
  | cons q rest ih =>
    intro v hchain p hp
    obtain ⟨hq, hrest⟩ := hchain
    rcases List.mem_cons.mp hp with rfl | hmem
    · rw [hq]
      exact pyRound2_nonneg _ (le_max_left 0 _)
    · exact ih (vol q.radii) hrest p hmem

theorem chain_sum_bound (vol : List ℝ → ℝ) (rs : List RoughPassData) :
    ∀ (v : ℝ), IsRoundedDiffChain vol v rs → VolNonincreasing vol v rs →
      |(rs.map RoughPassData.volume).sum - (v - lastVol vol v rs)| ≤
        (rs.length : ℝ) * (1 / 200) := by
  induction rs with
  | nil =>
    intro v _ _
    simp [lastVol]
  | cons q rest ih =>
    intro v hchain hmono
    obtain ⟨hq, hrest⟩ := hchain
    obtain ⟨hle, hmrest⟩ := hmono
    have htr : max 0 (v - vol q.radii) = v - vol q.radii :=
      max_eq_right (by linarith)
    have h1 : |q.volume - (v - vol q.radii)| ≤ 1 / 200 := by
      rw [hq, htr]
      exact abs_pyRound2_sub _
    have h2 := ih (vol q.radii) hrest hmrest
    rw [List.map_cons, List.sum_cons]
    show |q.volume + (rest.map RoughPassData.volume).sum -
        (v - lastVol vol (vol q.radii) rest)| ≤ ((q :: rest).length : ℝ) * (1 / 200)
    rw [List.length_cons]
    push_cast
    rw [abs_le] at h1 h2 ⊢
    constructor <;> nlinarith [h1.1, h1.2, h2.1, h2.2]

theorem loopState_chain (vol : List ℝ → ℝ) (finalRadii : List ℝ) (method : String)
    (v0 : ℝ) (l : List (ℕ × RoughPass)) :
    ∀ (st : RoughState), IsRoundedDiffChain vol v0 st.results →
      st.currentVolume = lastVol vol v0 st.results →
      IsRoundedDiffChain vol v0 (l.foldl (roughingStep vol finalRadii method) st).results ∧
        (l.foldl (roughingStep vol finalRadii method) st).currentVolume =
          lastVol vol v0 (l.foldl (roughingStep vol finalRadii method) st).results := by
  induction l with
  | nil => intro st h1 h2; exact ⟨h1, h2⟩
  | cons iop rest ih =>
    intro st h1 h2
    rw [List.foldl_cons]
    apply ih
    · apply isRoundedDiffChain_append vol st.results v0 _ h1
      show pyRound2 (max 0 (st.currentVolume - vol (newRadiiFor finalRadii method st iop.2))) = _
      rw [h2]
      rfl
    · show vol (newRadiiFor finalRadii method st iop.2) = _
      rw [show (roughingStep vol finalRadii method st iop).results =
          st.results ++ [(createPassData vol (iop.1 + 1)
            (newRadiiFor finalRadii method st iop.2) st.currentVolume
            iop.2.speedSPerRev).1] from rfl]
      rw [lastVol_append]
      rfl

theorem generate_chain (vol : List ℝ → ℝ) (finalRadii : List ℝ) (blankRadius : ℝ)
    (method : String) (passes : List RoughPass) :
    IsRoundedDiffChain vol (vol (List.replicate 360 blankRadius))
        (generateRoughingOperations vol finalRadii blankRadius method passes) ∧
      lastVol vol (vol (List.replicate 360 blankRadius))
          (generateRoughingOperations vol finalRadii blankRadius method passes) =
        (if npMax (List.zipWith (fun c f => c - f)
            (loopState vol finalRadii blankRadius method passes).currentRadii finalRadii) > 0.001
         then vol finalRadii
         else (loopState vol finalRadii blankRadius method passes).currentVolume) := by
  have hbase : IsRoundedDiffChain vol (vol (List.replicate 360 blankRadius))
      (loopState vol finalRadii blankRadius method passes).results ∧
      (loopState vol finalRadii blankRadius method passes).currentVolume =
        lastVol vol (vol (List.replicate 360 blankRadius))
          (loopState vol finalRadii blankRadius method passes).results :=
    loopState_chain vol finalRadii method (vol (List.replicate 360 blankRadius))
      passes.enum ⟨[], List.replicate finalRadii.length blankRadius, blankRadius,
        vol (List.replicate 360 blankRadius)⟩ trivial rfl
  unfold generateRoughingOperations
  by_cases hdev : npMax (List.zipWith (fun c f => c - f)
      (loopState vol finalRadii blankRadius method passes).currentRadii finalRadii) > 0.001
  · rw [if_pos hdev, if_pos hdev]
    constructor
    · apply isRoundedDiffChain_append vol _ _ _ hbase.1
      show pyRound2 (max 0 ((loopState vol finalRadii blankRadius method passes).currentVolume -
        vol finalRadii)) = _
      rw [hbase.2]
      rfl
    · rw [lastVol_append]
      rfl
  · rw [if_neg hdev, if_neg hdev]
    exact ⟨hbase.1, by rw [← hbase.2]⟩

end Rough

/-- C7 amended: each pass's reported volume equals
`round(max(0, previousVolume - currentVolume), 2)` — never negative; and when
the mesh-volume chain (blank volume, then each generated contour's volume) is
non-increasing, the reported volumes sum to `blankVolume - lastVolume` within
the rounding tolerance of 0.005 mm³ per pass. -/
theorem pass_volume_rounding_and_conservation (vol : List ℝ → ℝ)
    (finalRadii : List ℝ) (blankRadius : ℝ) (method : String)
    (passes : List Rough.RoughPass) :
    Rough.IsRoundedDiffChain vol (vol (List.replicate 360 blankRadius))
        (Rough.generateRoughingOperations vol finalRadii blankRadius method passes) ∧
      (∀ p ∈ Rough.generateRoughingOperations vol finalRadii blankRadius method passes,
        0 ≤ p.volume) ∧
      (Rough.VolNonincreasing vol (vol (List.replicate 360 blankRadius))
          (Rough.generateRoughingOperations vol finalRadii blankRadius method passes) →
        |((Rough.generateRoughingOperations vol finalRadii blankRadius method passes).map
            Rough.RoughPassData.volume).sum -
          (vol (List.replicate 360 blankRadius) -
            Rough.lastVol vol (vol (List.replicate 360 blankRadius))
              (Rough.generateRoughingOperations vol finalRadii blankRadius method passes))| ≤
        ((Rough.generateRoughingOperations vol finalRadii blankRadius method
            passes).length : ℝ) * (1 / 200)) :=
  have hchain := (Rough.generate_chain vol finalRadii blankRadius method passes).1
  ⟨hchain, Rough.chain_volume_nonneg vol _ _ hchain,
    fun hmono => Rough.chain_sum_bound vol _ _ hchain hmono⟩

theorem rough_generate_empty :
    Rough.generateRoughingOperations (fun l => l.sum) [5, 5, 5, 5] 5 "CONCENTRIC" [] = [] := by
  unfold Rough.generateRoughingOperations Rough.loopState
  have hz : List.zipWith (fun c f => c - f)
      (List.replicate ([5, 5, 5, 5] : List ℝ).length (5 : ℝ)) ([5, 5, 5, 5] : List ℝ) =
      [0, 0, 0, 0] := by
    show List.zipWith (fun c f => c - f) [(5 : ℝ), 5, 5, 5] [(5 : ℝ), 5, 5, 5] = [0, 0, 0, 0]
    norm_num
  rw [List.enum_nil, List.foldl_nil]
  rw [if_neg ?_]
  rw [hz]
  rw [show npMax [(0 : ℝ), 0, 0, 0] = 0 from by norm_num [npMax]]
  norm_num

theorem pass_volume_rounding_and_conservation_witness :
    Rough.IsRoundedDiffChain (fun l => l.sum)
        ((fun (l : List ℝ) => l.sum) (List.replicate 360 (5 : ℝ)))
        (Rough.generateRoughingOperations (fun l => l.sum) [5, 5, 5, 5] 5 "CONCENTRIC" []) ∧
      (∀ p ∈ Rough.generateRoughingOperations (fun l => l.sum) [5, 5, 5, 5] 5 "CONCENTRIC" [],
        0 ≤ p.volume) ∧
      |((Rough.generateRoughingOperations (fun l => l.sum) [5, 5, 5, 5] 5 "CONCENTRIC" []).map
          Rough.RoughPassData.volume).sum -
        ((fun (l : List ℝ) => l.sum) (List.replicate 360 (5 : ℝ)) -
          Rough.lastVol (fun l => l.sum)
            ((fun (l : List ℝ) => l.sum) (List.replicate 360 (5 : ℝ)))
            (Rough.generateRoughingOperations (fun l => l.sum) [5, 5, 5, 5] 5 "CONCENTRIC" []))| ≤
      ((Rough.generateRoughingOperations (fun l => l.sum) [5, 5, 5, 5] 5 "CONCENTRIC"
          []).length : ℝ) * (1 / 200) := by
  have h := pass_volume_rounding_and_conservation (fun l => l.sum) [5, 5, 5, 5] 5 "CONCENTRIC" []
  refine ⟨h.1, h.2.1, h.2.2 ?_⟩
  rw [rough_generate_empty]
  trivial

/-! ### Evaluation of `get_convex_radii` on two concrete hexagonal profiles
(`[12.5,...]`, the first CONCENTRIC pass of the failing input, and
`[1,10,12,10,10,10]`, its second pass). -/

theorem cos_two_pi_div_three : Real.cos (2 * π / 3) = -(1 / 2) := by
  have h : 2 * π / 3 = π - π / 3 := by ring
  rw [h, Real.cos_pi_sub, Real.cos_pi_div_three]

theorem sin_two_pi_div_three : Real.sin (2 * π / 3) = Real.sqrt 3 / 2 := by
  have h : 2 * π / 3 = π - π / 3 := by ring
  rw [h, Real.sin_pi_sub, Real.sin_pi_div_three]

theorem cos_four_pi_div_three : Real.cos (4 * π / 3) = -(1 / 2) := by
  have h : 4 * π / 3 = π + π / 3 := by ring
  rw [h, Real.cos_add, Real.cos_pi, Real.sin_pi, Real.cos_pi_div_three]
  ring

theorem sin_four_pi_div_three : Real.sin (4 * π / 3) = -(Real.sqrt 3 / 2) := by
  have h : 4 * π / 3 = π + π / 3 := by ring
  rw [h, Real.sin_add, Real.cos_pi, Real.sin_pi, Real.sin_pi_div_three]
  ring

theorem cos_five_pi_div_three : Real.cos (5 * π / 3) = 1 / 2 := by
  have h : 5 * π / 3 = 2 * π - π / 3 := by ring
  rw [h, Real.cos_sub, Real.cos_two_pi, Real.sin_two_pi, Real.cos_pi_div_three]
  ring

theorem sin_five_pi_div_three : Real.sin (5 * π / 3) = -(Real.sqrt 3 / 2) := by
  have h : 5 * π / 3 = 2 * π - π / 3 := by ring
  rw [h, Real.sin_sub, Real.cos_two_pi, Real.sin_two_pi, Real.sin_pi_div_three]
  ring

namespace Rough

/-- A point strictly beyond a halfspace containing `s` is outside
`convexHull ℝ s`. -/
theorem not_mem_convexHull_sep (s : Set (ℝ × ℝ)) (a b c : ℝ)
    (hs : ∀ q ∈ s, a * q.1 + b * q.2 ≤ c) (p : ℝ × ℝ)
    (hp : c < a * p.1 + b * p.2) : p ∉ convexHull ℝ s := by
  intro hmem
  have hlin : IsLinearMap ℝ (fun q : ℝ × ℝ => a * q.1 + b * q.2) := by
    constructor
    · intro u v
      show a * (u.1 + v.1) + b * (u.2 + v.2) = _
      ring
    · intro t u
      show a * (t * u.1) + b * (t * u.2) = t * (a * u.1 + b * u.2)
      ring
  have hsubset : convexHull ℝ s ⊆ {q : ℝ × ℝ | a * q.1 + b * q.2 ≤ c} :=
    convexHull_min hs (convex_halfspace_le hlin c)
  exact absurd (hsubset hmem) (not_le.mpr hp)

theorem angle6 (L : List ℝ) (hL : L.length = 6) (i : ℕ) :
    2 * π * (i : ℝ) / (L.length : ℝ) = (i : ℝ) * π / 3 := by
  rw [hL]
  push_cast
  ring

theorem pt_eval6 (L : List ℝ) (hL : L.length = 6) (i : ℕ) (r θ : ℝ)
    (hr : L.getD i 0 = r) (hθ : (i : ℝ) * π / 3 = θ) :
    pt L i = (r * Real.cos θ, r * Real.sin θ) := by
  unfold pt
  rw [hr, angle6 L hL i, hθ]

theorem ptC0 : pt [1, 10, 12, 10, 10, 10] 0 = ((1 : ℝ), (0 : ℝ)) := by
  rw [pt_eval6 [1, 10, 12, 10, 10, 10] rfl 0 1 0 rfl (by push_cast; ring)]
  rw [Real.cos_zero, Real.sin_zero]
  norm_num

theorem ptC1 : pt [1, 10, 12, 10, 10, 10] 1 = ((5 : ℝ), 5 * Real.sqrt 3) := by
  rw [pt_eval6 [1, 10, 12, 10, 10, 10] rfl 1 10 (π / 3) rfl (by push_cast; ring)]
  rw [Real.cos_pi_div_three, Real.sin_pi_div_three]
  rw [Prod.mk.injEq]
  exact ⟨by ring, by ring⟩

theorem ptC2 : pt [1, 10, 12, 10, 10, 10] 2 = ((-6 : ℝ), 6 * Real.sqrt 3) := by
  rw [pt_eval6 [1, 10, 12, 10, 10, 10] rfl 2 12 (2 * π / 3) rfl (by push_cast; ring)]
  rw [cos_two_pi_div_three, sin_two_pi_div_three]
  rw [Prod.mk.injEq]
  exact ⟨by ring, by ring⟩

theorem ptC3 : pt [1, 10, 12, 10, 10, 10] 3 = ((-10 : ℝ), (0 : ℝ)) := by
  rw [pt_eval6 [1, 10, 12, 10, 10, 10] rfl 3 10 π rfl (by push_cast; ring)]
  rw [Real.cos_pi, Real.sin_pi]
  rw [Prod.mk.injEq]
  exact ⟨by ring, by ring⟩

theorem ptC4 : pt [1, 10, 12, 10, 10, 10] 4 = ((-5 : ℝ), -(5 * Real.sqrt 3)) := by
  rw [pt_eval6 [1, 10, 12, 10, 10, 10] rfl 4 10 (4 * π / 3) rfl (by push_cast; ring)]
  rw [cos_four_pi_div_three, sin_four_pi_div_three]
  rw [Prod.mk.injEq]
  exact ⟨by ring, by ring⟩

theorem ptC5 : pt [1, 10, 12, 10, 10, 10] 5 = ((5 : ℝ), -(5 * Real.sqrt 3)) := by
  rw [pt_eval6 [1, 10, 12, 10, 10, 10] rfl 5 10 (5 * π / 3) rfl (by push_cast; ring)]
  rw [cos_five_pi_div_three, sin_five_pi_div_three]
  rw [Prod.mk.injEq]
  exact ⟨by ring, by ring⟩

theorem ptB0 : pt [12.5, 12.5, 12.5, 12.5, 12.5, 12.5] 0 = ((12.5 : ℝ), (0 : ℝ)) := by
  rw [pt_eval6 [12.5, 12.5, 12.5, 12.5, 12.5, 12.5] rfl 0 12.5 0 rfl (by push_cast; ring)]
  rw [Real.cos_zero, Real.sin_zero]
  norm_num

theorem ptB1 : pt [12.5, 12.5, 12.5, 12.5, 12.5, 12.5] 1 =
    ((6.25 : ℝ), 6.25 * Real.sqrt 3) := by
  rw [pt_eval6 [12.5, 12.5, 12.5, 12.5, 12.5, 12.5] rfl 1 12.5 (π / 3) rfl (by push_cast; ring)]
  rw [Real.cos_pi_div_three, Real.sin_pi_div_three]
  rw [Prod.mk.injEq]
  exact ⟨by norm_num, by ring⟩

theorem ptB2 : pt [12.5, 12.5, 12.5, 12.5, 12.5, 12.5] 2 =
    ((-6.25 : ℝ), 6.25 * Real.sqrt 3) := by
  rw [pt_eval6 [12.5, 12.5, 12.5, 12.5, 12.5, 12.5] rfl 2 12.5 (2 * π / 3) rfl (by push_cast; ring)]
  rw [cos_two_pi_div_three, sin_two_pi_div_three]
  rw [Prod.mk.injEq]
  exact ⟨by norm_num, by ring⟩

theorem ptB3 : pt [12.5, 12.5, 12.5, 12.5, 12.5, 12.5] 3 = ((-12.5 : ℝ), (0 : ℝ)) := by
  rw [pt_eval6 [12.5, 12.5, 12.5, 12.5, 12.5, 12.5] rfl 3 12.5 π rfl (by push_cast; ring)]
  rw [Real.cos_pi, Real.sin_pi]
  rw [Prod.mk.injEq]
  exact ⟨by norm_num, by norm_num⟩

theorem ptB4 : pt [12.5, 12.5, 12.5, 12.5, 12.5, 12.5] 4 =
    ((-6.25 : ℝ), -(6.25 * Real.sqrt 3)) := by
  rw [pt_eval6 [12.5, 12.5, 12.5, 12.5, 12.5, 12.5] rfl 4 12.5 (4 * π / 3) rfl (by push_cast; ring)]
  rw [cos_four_pi_div_three, sin_four_pi_div_three]
  rw [Prod.mk.injEq]
  exact ⟨by norm_num, by ring⟩

theorem ptB5 : pt [12.5, 12.5, 12.5, 12.5, 12.5, 12.5] 5 =
    ((6.25 : ℝ), -(6.25 * Real.sqrt 3)) := by
  rw [pt_eval6 [12.5, 12.5, 12.5, 12.5, 12.5, 12.5] rfl 5 12.5 (5 * π / 3) rfl (by push_cast; ring)]
  rw [cos_five_pi_div_three, sin_five_pi_div_three]
  rw [Prod.mk.injEq]
  exact ⟨by norm_num, by ring⟩

end Rough

namespace Rough

theorem hullVertC1 : isHullVertex [1, 10, 12, 10, 10, 10] 1 := by
  have h3 : Real.sqrt 3 * Real.sqrt 3 = 3 := Real.mul_self_sqrt (by norm_num)
  have hpos : 0 < Real.sqrt 3 := Real.sqrt_pos.mpr (by norm_num)
  unfold isHullVertex
  apply not_mem_convexHull_sep _ 3 (Real.sqrt 3) 3
  · rintro q ⟨j, hj, hne, rfl⟩
    have hj6 : j < 6 := hj
    interval_cases j
    · rw [ptC0]; simp only []; nlinarith [h3, hpos]
    · exact absurd rfl hne
    · rw [ptC2]; simp only []; nlinarith [h3, hpos]
    · rw [ptC3]; simp only []; nlinarith [h3, hpos]
    · rw [ptC4]; simp only []; nlinarith [h3, hpos]
    · rw [ptC5]; simp only []; nlinarith [h3, hpos]
  · rw [ptC1]; simp only []; nlinarith [h3, hpos]

theorem hullVertC2 : isHullVertex [1, 10, 12, 10, 10, 10] 2 := by
  have h3 : Real.sqrt 3 * Real.sqrt 3 = 3 := Real.mul_self_sqrt (by norm_num)
  have hpos : 0 < Real.sqrt 3 := Real.sqrt_pos.mpr (by norm_num)
  unfold isHullVertex
  apply not_mem_convexHull_sep _ (-(Real.sqrt 3)) 3 (10 * Real.sqrt 3)
  · rintro q ⟨j, hj, hne, rfl⟩
    have hj6 : j < 6 := hj
    interval_cases j
    · rw [ptC0]; simp only []; nlinarith [h3, hpos]
    · rw [ptC1]; simp only []; nlinarith [h3, hpos]
    · exact absurd rfl hne
    · rw [ptC3]; simp only []; nlinarith [h3, hpos]
    · rw [ptC4]; simp only []; nlinarith [h3, hpos]
    · rw [ptC5]; simp only []; nlinarith [h3, hpos]
  · rw [ptC2]; simp only []; nlinarith [h3, hpos]

theorem hullVertC3 : isHullVertex [1, 10, 12, 10, 10, 10] 3 := by
  have h3 : Real.sqrt 3 * Real.sqrt 3 = 3 := Real.mul_self_sqrt (by norm_num)
  have hpos : 0 < Real.sqrt 3 := Real.sqrt_pos.mpr (by norm_num)
  unfold isHullVertex
  apply not_mem_convexHull_sep _ (-1) 0 6
  · rintro q ⟨j, hj, hne, rfl⟩
    have hj6 : j < 6 := hj
    interval_cases j
    · rw [ptC0]; simp only []; nlinarith [h3, hpos]
    · rw [ptC1]; simp only []; nlinarith [h3, hpos]
    · rw [ptC2]; simp only []; nlinarith [h3, hpos]
    · exact absurd rfl hne
    · rw [ptC4]; simp only []; nlinarith [h3, hpos]
    · rw [ptC5]; simp only []; nlinarith [h3, hpos]
  · rw [ptC3]; simp only []; nlinarith [h3, hpos]

theorem hullVertC4 : isHullVertex [1, 10, 12, 10, 10, 10] 4 := by
  have h3 : Real.sqrt 3 * Real.sqrt 3 = 3 := Real.mul_self_sqrt (by norm_num)
  have hpos : 0 < Real.sqrt 3 := Real.sqrt_pos.mpr (by norm_num)
  unfold isHullVertex
  apply not_mem_convexHull_sep _ (-1) (-(Real.sqrt 3)) 10
  · rintro q ⟨j, hj, hne, rfl⟩
    have hj6 : j < 6 := hj
    interval_cases j
    · rw [ptC0]; simp only []; nlinarith [h3, hpos]
    · rw [ptC1]; simp only []; nlinarith [h3, hpos]
    · rw [ptC2]; simp only []; nlinarith [h3, hpos]
    · rw [ptC3]; simp only []; nlinarith [h3, hpos]
    · exact absurd rfl hne
    · rw [ptC5]; simp only []; nlinarith [h3, hpos]
  · rw [ptC4]; simp only []; nlinarith [h3, hpos]

theorem hullVertC5 : isHullVertex [1, 10, 12, 10, 10, 10] 5 := by
  have h3 : Real.sqrt 3 * Real.sqrt 3 = 3 := Real.mul_self_sqrt (by norm_num)
  have hpos : 0 < Real.sqrt 3 := Real.sqrt_pos.mpr (by norm_num)
  unfold isHullVertex
  apply not_mem_convexHull_sep _ 3 (-(Real.sqrt 3)) 3
  · rintro q ⟨j, hj, hne, rfl⟩
    have hj6 : j < 6 := hj
    interval_cases j
    · rw [ptC0]; simp only []; nlinarith [h3, hpos]
    · rw [ptC1]; simp only []; nlinarith [h3, hpos]
    · rw [ptC2]; simp only []; nlinarith [h3, hpos]
    · rw [ptC3]; simp only []; nlinarith [h3, hpos]
    · rw [ptC4]; simp only []; nlinarith [h3, hpos]
    · exact absurd rfl hne
  · rw [ptC5]; simp only []; nlinarith [h3, hpos]

theorem hullVertC0_not : ¬ isHullVertex [1, 10, 12, 10, 10, 10] 0 := by
  unfold isHullVertex
  apply not_not_intro
  have h1 : ((5 : ℝ), 5 * Real.sqrt 3) ∈
      {q : ℝ × ℝ | ∃ j < ([1, 10, 12, 10, 10, 10] : List ℝ).length, j ≠ 0 ∧
        q = pt [1, 10, 12, 10, 10, 10] j} :=
    ⟨1, by norm_num, by norm_num, ptC1.symm⟩
  have h5 : ((5 : ℝ), -(5 * Real.sqrt 3)) ∈
      {q : ℝ × ℝ | ∃ j < ([1, 10, 12, 10, 10, 10] : List ℝ).length, j ≠ 0 ∧
        q = pt [1, 10, 12, 10, 10, 10] j} :=
    ⟨5, by norm_num, by norm_num, ptC5.symm⟩
  have h3' : ((-10 : ℝ), (0 : ℝ)) ∈
      {q : ℝ × ℝ | ∃ j < ([1, 10, 12, 10, 10, 10] : List ℝ).length, j ≠ 0 ∧
        q = pt [1, 10, 12, 10, 10, 10] j} :=
    ⟨3, by norm_num, by norm_num, ptC3.symm⟩
  have hm : ((5 : ℝ), (0 : ℝ)) ∈ convexHull ℝ
      {q : ℝ × ℝ | ∃ j < ([1, 10, 12, 10, 10, 10] : List ℝ).length, j ≠ 0 ∧
        q = pt [1, 10, 12, 10, 10, 10] j} := by
    have := convex_convexHull ℝ
      {q : ℝ × ℝ | ∃ j < ([1, 10, 12, 10, 10, 10] : List ℝ).length, j ≠ 0 ∧
        q = pt [1, 10, 12, 10, 10, 10] j}
      (subset_convexHull ℝ _ h1) (subset_convexHull ℝ _ h5)
      (by norm_num : (0 : ℝ) ≤ 1 / 2) (by norm_num : (0 : ℝ) ≤ 1 / 2)
      (by norm_num : (1 / 2 : ℝ) + 1 / 2 = 1)
    have heq : (1 / 2 : ℝ) • ((5 : ℝ), 5 * Real.sqrt 3) +
        (1 / 2 : ℝ) • ((5 : ℝ), -(5 * Real.sqrt 3)) = ((5 : ℝ), (0 : ℝ)) := by
      rw [Prod.smul_mk, Prod.smul_mk, Prod.mk_add_mk, Prod.mk.injEq]
      constructor <;> [skip; skip] <;> simp [smul_eq_mul] <;> ring
    rwa [heq] at this
  have hfin := convex_convexHull ℝ
      {q : ℝ × ℝ | ∃ j < ([1, 10, 12, 10, 10, 10] : List ℝ).length, j ≠ 0 ∧
        q = pt [1, 10, 12, 10, 10, 10] j}
      (subset_convexHull ℝ _ h3') hm
      (by norm_num : (0 : ℝ) ≤ 4 / 15) (by norm_num : (0 : ℝ) ≤ 11 / 15)
      (by norm_num : (4 / 15 : ℝ) + 11 / 15 = 1)
  have heq2 : (4 / 15 : ℝ) • ((-10 : ℝ), (0 : ℝ)) + (11 / 15 : ℝ) • ((5 : ℝ), (0 : ℝ)) =
      ((1 : ℝ), (0 : ℝ)) := by
    rw [Prod.smul_mk, Prod.smul_mk, Prod.mk_add_mk, Prod.mk.injEq]
    constructor <;> simp [smul_eq_mul] <;> ring
  rw [heq2] at hfin
  rw [ptC0]
  exact hfin

end Rough

namespace Rough

theorem hullVertB0 : isHullVertex [12.5, 12.5, 12.5, 12.5, 12.5, 12.5] 0 := by
  have h3 : Real.sqrt 3 * Real.sqrt 3 = 3 := Real.mul_self_sqrt (by norm_num)
  have hpos : 0 < Real.sqrt 3 := Real.sqrt_pos.mpr (by norm_num)
  unfold isHullVertex
  apply not_mem_convexHull_sep _ 1 0 6.25
  · rintro q ⟨j, hj, hne, rfl⟩
    have hj6 : j < 6 := hj
    interval_cases j
    · exact absurd rfl hne
    · rw [ptB1]; simp only []; nlinarith [h3, hpos]
    · rw [ptB2]; simp only []; nlinarith [h3, hpos]
    · rw [ptB3]; simp only []; nlinarith [h3, hpos]
    · rw [ptB4]; simp only []; nlinarith [h3, hpos]
    · rw [ptB5]; simp only []; nlinarith [h3, hpos]
  · rw [ptB0]; simp only []; nlinarith [h3, hpos]

theorem hullVertB1 : isHullVertex [12.5, 12.5, 12.5, 12.5, 12.5, 12.5] 1 := by
  have h3 : Real.sqrt 3 * Real.sqrt 3 = 3 := Real.mul_self_sqrt (by norm_num)
  have hpos : 0 < Real.sqrt 3 := Real.sqrt_pos.mpr (by norm_num)
  unfold isHullVertex
  apply not_mem_convexHull_sep _ 1 (Real.sqrt 3) 12.5
  · rintro q ⟨j, hj, hne, rfl⟩
    have hj6 : j < 6 := hj
    interval_cases j
    · rw [ptB0]; simp only []; nlinarith [h3, hpos]
    · exact absurd rfl hne
    · rw [ptB2]; simp only []; nlinarith [h3, hpos]
    · rw [ptB3]; simp only []; nlinarith [h3, hpos]
    · rw [ptB4]; simp only []; nlinarith [h3, hpos]
    · rw [ptB5]; simp only []; nlinarith [h3, hpos]
  · rw [ptB1]; simp only []; nlinarith [h3, hpos]

theorem hullVertB2 : isHullVertex [12.5, 12.5, 12.5, 12.5, 12.5, 12.5] 2 := by
  have h3 : Real.sqrt 3 * Real.sqrt 3 = 3 := Real.mul_self_sqrt (by norm_num)
  have hpos : 0 < Real.sqrt 3 := Real.sqrt_pos.mpr (by norm_num)
  unfold isHullVertex
  apply not_mem_convexHull_sep _ (-1) (Real.sqrt 3) 12.5
  · rintro q ⟨j, hj, hne, rfl⟩
    have hj6 : j < 6 := hj
    interval_cases j
    · rw [ptB0]; simp only []; nlinarith [h3, hpos]
    · rw [ptB1]; simp only []; nlinarith [h3, hpos]
    · exact absurd rfl hne
    · rw [ptB3]; simp only []; nlinarith [h3, hpos]
    · rw [ptB4]; simp only []; nlinarith [h3, hpos]
    · rw [ptB5]; simp only []; nlinarith [h3, hpos]
  · rw [ptB2]; simp only []; nlinarith [h3, hpos]

theorem hullVertB3 : isHullVertex [12.5, 12.5, 12.5, 12.5, 12.5, 12.5] 3 := by
  have h3 : Real.sqrt 3 * Real.sqrt 3 = 3 := Real.mul_self_sqrt (by norm_num)
  have hpos : 0 < Real.sqrt 3 := Real.sqrt_pos.mpr (by norm_num)
  unfold isHullVertex
  apply not_mem_convexHull_sep _ (-1) 0 6.25
  · rintro q ⟨j, hj, hne, rfl⟩
    have hj6 : j < 6 := hj
    interval_cases j
    · rw [ptB0]; simp only []; nlinarith [h3, hpos]
    · rw [ptB1]; simp only []; nlinarith [h3, hpos]
    · rw [ptB2]; simp only []; nlinarith [h3, hpos]
    · exact absurd rfl hne
    · rw [ptB4]; simp only []; nlinarith [h3, hpos]
    · rw [ptB5]; simp only []; nlinarith [h3, hpos]
  · rw [ptB3]; simp only []; nlinarith [h3, hpos]

theorem hullVertB4 : isHullVertex [12.5, 12.5, 12.5, 12.5, 12.5, 12.5] 4 := by
  have h3 : Real.sqrt 3 * Real.sqrt 3 = 3 := Real.mul_self_sqrt (by norm_num)
  have hpos : 0 < Real.sqrt 3 := Real.sqrt_pos.mpr (by norm_num)
  unfold isHullVertex
  apply not_mem_convexHull_sep _ (-1) (-(Real.sqrt 3)) 12.5
  · rintro q ⟨j, hj, hne, rfl⟩
    have hj6 : j < 6 := hj
    interval_cases j
    · rw [ptB0]; simp only []; nlinarith [h3, hpos]
    · rw [ptB1]; simp only []; nlinarith [h3, hpos]
    · rw [ptB2]; simp only []; nlinarith [h3, hpos]
    · rw [ptB3]; simp only []; nlinarith [h3, hpos]
    · exact absurd rfl hne
    · rw [ptB5]; simp only []; nlinarith [h3, hpos]
  · rw [ptB4]; simp only []; nlinarith [h3, hpos]

theorem hullVertB5 : isHullVertex [12.5, 12.5, 12.5, 12.5, 12.5, 12.5] 5 := by
  have h3 : Real.sqrt 3 * Real.sqrt 3 = 3 := Real.mul_self_sqrt (by norm_num)
  have hpos : 0 < Real.sqrt 3 := Real.sqrt_pos.mpr (by norm_num)
  unfold isHullVertex
  apply not_mem_convexHull_sep _ 1 (-(Real.sqrt 3)) 12.5
  · rintro q ⟨j, hj, hne, rfl⟩
    have hj6 : j < 6 := hj
    interval_cases j
    · rw [ptB0]; simp only []; nlinarith [h3, hpos]
    · rw [ptB1]; simp only []; nlinarith [h3, hpos]
    · rw [ptB2]; simp only []; nlinarith [h3, hpos]
    · rw [ptB3]; simp only []; nlinarith [h3, hpos]
    · rw [ptB4]; simp only []; nlinarith [h3, hpos]
    · exact absurd rfl hne
  · rw [ptB5]; simp only []; nlinarith [h3, hpos]

end Rough

namespace Rough

theorem notCollinearC : ¬ Collinear ℝ
    {q : ℝ × ℝ | ∃ j < ([1, 10, 12, 10, 10, 10] : List ℝ).length,
      q = pt [1, 10, 12, 10, 10, 10] j} := by
  have hpos : 0 < Real.sqrt 3 := Real.sqrt_pos.mpr (by norm_num)
  intro hcol
  have hp0 : ((1 : ℝ), (0 : ℝ)) ∈
      {q : ℝ × ℝ | ∃ j < ([1, 10, 12, 10, 10, 10] : List ℝ).length,
        q = pt [1, 10, 12, 10, 10, 10] j} := ⟨0, by norm_num, ptC0.symm⟩
  rw [collinear_iff_of_mem hp0] at hcol
  obtain ⟨v, hv⟩ := hcol
  obtain ⟨t1, ht1⟩ := hv ((5 : ℝ), 5 * Real.sqrt 3) ⟨1, by norm_num, ptC1.symm⟩
  obtain ⟨t2, ht2⟩ := hv ((-6 : ℝ), 6 * Real.sqrt 3) ⟨2, by norm_num, ptC2.symm⟩
  rw [Prod.ext_iff] at ht1 ht2
  simp only [vadd_eq_add, Prod.smul_fst, Prod.smul_snd, Prod.fst_add, Prod.snd_add,
    smul_eq_mul] at ht1 ht2
  have c1 : t1 * v.1 = 4 := by linarith [ht1.1]
  have c2 : t1 * v.2 = 5 * Real.sqrt 3 := by linarith [ht1.2]
  have c3 : t2 * v.1 = -7 := by linarith [ht2.1]
  have c4 : t2 * v.2 = 6 * Real.sqrt 3 := by linarith [ht2.2]
  have hcross : (t1 * v.2) * (t2 * v.1) = (t2 * v.2) * (t1 * v.1) := by ring
  rw [c1, c2, c3, c4] at hcross
  nlinarith [hpos]

theorem notCollinearB : ¬ Collinear ℝ
    {q : ℝ × ℝ | ∃ j < ([12.5, 12.5, 12.5, 12.5, 12.5, 12.5] : List ℝ).length,
      q = pt [12.5, 12.5, 12.5, 12.5, 12.5, 12.5] j} := by
  have hpos : 0 < Real.sqrt 3 := Real.sqrt_pos.mpr (by norm_num)
  intro hcol
  have hp0 : ((12.5 : ℝ), (0 : ℝ)) ∈
      {q : ℝ × ℝ | ∃ j < ([12.5, 12.5, 12.5, 12.5, 12.5, 12.5] : List ℝ).length,
        q = pt [12.5, 12.5, 12.5, 12.5, 12.5, 12.5] j} := ⟨0, by norm_num, ptB0.symm⟩
  rw [collinear_iff_of_mem hp0] at hcol
  obtain ⟨v, hv⟩ := hcol
  obtain ⟨t1, ht1⟩ := hv ((6.25 : ℝ), 6.25 * Real.sqrt 3) ⟨1, by norm_num, ptB1.symm⟩
  obtain ⟨t2, ht2⟩ := hv ((-6.25 : ℝ), 6.25 * Real.sqrt 3) ⟨2, by norm_num, ptB2.symm⟩
  rw [Prod.ext_iff] at ht1 ht2
  simp only [vadd_eq_add, Prod.smul_fst, Prod.smul_snd, Prod.fst_add, Prod.snd_add,
    smul_eq_mul] at ht1 ht2
  have c1 : t1 * v.1 = -6.25 := by linarith [ht1.1]
  have c2 : t1 * v.2 = 6.25 * Real.sqrt 3 := by linarith [ht1.2]
  have c3 : t2 * v.1 = -18.75 := by linarith [ht2.1]
  have c4 : t2 * v.2 = 6.25 * Real.sqrt 3 := by linarith [ht2.2]
  have hcross : (t1 * v.2) * (t2 * v.1) = (t2 * v.2) * (t1 * v.1) := by ring
  rw [c1, c2, c3, c4] at hcross
  nlinarith [hpos]

theorem notDegenC : ¬ degenerateHull [1, 10, 12, 10, 10, 10] := by
  unfold degenerateHull
  rintro (h | h)
  · norm_num at h
  · exact notCollinearC h

theorem notDegenB : ¬ degenerateHull [12.5, 12.5, 12.5, 12.5, 12.5, 12.5] := by
  unfold degenerateHull
  rintro (h | h)
  · norm_num at h
  · exact notCollinearB h

theorem hullIdxC : hullIndices [1, 10, 12, 10, 10, 10] = [1, 2, 3, 4, 5] := by
  show (List.range 6).filter
    (fun i => decide (isHullVertex [1, 10, 12, 10, 10, 10] i)) = [1, 2, 3, 4, 5]
  rw [show List.range 6 = [0, 1, 2, 3, 4, 5] from rfl]
  rw [List.filter_cons_of_neg (by simpa using hullVertC0_not),
    List.filter_cons_of_pos (by simpa using hullVertC1),
    List.filter_cons_of_pos (by simpa using hullVertC2),
    List.filter_cons_of_pos (by simpa using hullVertC3),
    List.filter_cons_of_pos (by simpa using hullVertC4),
    List.filter_cons_of_pos (by simpa using hullVertC5),
    List.filter_nil]

theorem hullIdxB : hullIndices [12.5, 12.5, 12.5, 12.5, 12.5, 12.5] = [0, 1, 2, 3, 4, 5] := by
  show (List.range 6).filter
    (fun i => decide (isHullVertex [12.5, 12.5, 12.5, 12.5, 12.5, 12.5] i)) =
      [0, 1, 2, 3, 4, 5]
  rw [show List.range 6 = [0, 1, 2, 3, 4, 5] from rfl]
  rw [List.filter_cons_of_pos (by simpa using hullVertB0),
    List.filter_cons_of_pos (by simpa using hullVertB1),
    List.filter_cons_of_pos (by simpa using hullVertB2),
    List.filter_cons_of_pos (by simpa using hullVertB3),
    List.filter_cons_of_pos (by simpa using hullVertB4),
    List.filter_cons_of_pos (by simpa using hullVertB5),
    List.filter_nil]

end Rough

namespace Rough

theorem haC : closedHullAngles [1, 10, 12, 10, 10, 10] =
    [π / 3, 2 * π / 3, π, 4 * π / 3, 5 * π / 3, π / 3 + 2 * π] := by
  unfold closedHullAngles
  rw [hullIdxC, show ([1, 10, 12, 10, 10, 10] : List ℝ).length = 6 from rfl]
  rw [List.map_cons, List.map_cons, List.map_cons, List.map_cons, List.map_cons,
    List.map_nil, List.headD_cons]
  push_cast
  rw [List.cons_append, List.cons_append, List.cons_append, List.cons_append,
    List.cons_append, List.nil_append]
  simp only [List.cons.injEq, and_true]
  exact ⟨by ring, by ring, by ring, by ring, by ring, by ring⟩

theorem hrC : closedHullRadii [1, 10, 12, 10, 10, 10] = [10, 12, 10, 10, 10, 10] := by
  unfold closedHullRadii
  rw [hullIdxC]
  rw [List.map_cons, List.map_cons, List.map_cons, List.map_cons, List.map_cons,
    List.map_nil, List.headD_cons]
  norm_num [List.getD]

theorem haB : closedHullAngles [12.5, 12.5, 12.5, 12.5, 12.5, 12.5] =
    [0, π / 3, 2 * π / 3, π, 4 * π / 3, 5 * π / 3, 0 + 2 * π] := by
  unfold closedHullAngles
  rw [hullIdxB, show ([12.5, 12.5, 12.5, 12.5, 12.5, 12.5] : List ℝ).length = 6 from rfl]
  rw [List.map_cons, List.map_cons, List.map_cons, List.map_cons, List.map_cons,
    List.map_cons, List.map_nil, List.headD_cons]
  push_cast
  rw [List.cons_append, List.cons_append, List.cons_append, List.cons_append,
    List.cons_append, List.cons_append, List.nil_append]
  simp only [List.cons.injEq, and_true]
  exact ⟨by ring, by ring, by ring, by ring, by ring, by ring, by ring⟩

theorem hrB : closedHullRadii [12.5, 12.5, 12.5, 12.5, 12.5, 12.5] =
    [12.5, 12.5, 12.5, 12.5, 12.5, 12.5, 12.5] := by
  unfold closedHullRadii
  rw [hullIdxB]
  rw [List.map_cons, List.map_cons, List.map_cons, List.map_cons, List.map_cons,
    List.map_cons, List.map_nil, List.headD_cons]
  norm_num [List.getD]

end Rough

namespace Rough

theorem advance_stop (ha : List ℝ) (maxIdx : ℕ) (θ : ℝ) (idx : ℕ)
    (h : ¬(idx < maxIdx ∧ θ > ha.getD (idx + 1) 0)) : advance ha maxIdx θ idx = idx := by
  rw [advance]
  exact dif_neg h

theorem advance_step (ha : List ℝ) (maxIdx : ℕ) (θ : ℝ) (idx : ℕ)
    (h : idx < maxIdx ∧ θ > ha.getD (idx + 1) 0) :
    advance ha maxIdx θ idx = advance ha maxIdx θ (idx + 1) := by
  rw [advance]
  exact dif_pos h

theorem sqrt3_ge_one : (1 : ℝ) ≤ Real.sqrt 3 := by
  nlinarith [Real.sq_sqrt (show (0 : ℝ) ≤ 3 by norm_num), Real.sqrt_nonneg 3]

theorem theta6 (L : List ℝ) (hL : L.length = 6) (i : ℕ) (θ : ℝ)
    (h : (i : ℝ) * π / 3 = θ) : 2 * π * (i : ℝ) / (L.length : ℝ) = θ := by
  rw [angle6 L hL i, h]

theorem resampleOne_eval (ha hr radii : List ℝ) (idx i : ℕ) (θ d n v : ℝ)
    (hθ : 2 * π * (i : ℝ) / (radii.length : ℝ) = θ)
    (hd : rayDenom ha hr idx θ = d * Real.sqrt 3)
    (hn : rayNumer ha hr idx = n * Real.sqrt 3)
    (hdge : 1e-9 ≤ d) (hv : n = v * d) :
    resampleOne ha hr radii idx i = v := by
  have hs1 : (1 : ℝ) ≤ Real.sqrt 3 := sqrt3_ge_one
  have hs0 : (0 : ℝ) < Real.sqrt 3 := lt_of_lt_of_le one_pos hs1
  have hd0 : (0 : ℝ) < d := lt_of_lt_of_le (by norm_num) hdge
  unfold resampleOne
  rw [hθ, hd, hn]
  rw [if_neg (not_lt.mpr (by
    rw [abs_of_nonneg (le_of_lt (mul_pos hd0 hs0))]
    nlinarith))]
  rw [hv, show v * d * Real.sqrt 3 = v * (d * Real.sqrt 3) from by ring, mul_div_assoc,
    div_self (ne_of_gt (mul_pos hd0 hs0)), mul_one]

theorem resampleLoop_succ_eval (ha hr radii : List ℝ) (i p : ℕ) (acc : List ℝ)
    (hprev : resampleLoop ha hr radii i = (p, acc)) (m : ℕ) (hm : ha.length - 2 = m)
    (θ : ℝ) (hθ : 2 * π * (i : ℝ) / (radii.length : ℝ) = θ)
    (a : ℕ) (hadv : advance ha m θ p = a) (v : ℝ) (hv : resampleOne ha hr radii a i = v) :
    resampleLoop ha hr radii (i + 1) = (a, acc ++ [v]) := by
  have hstep : resampleLoop ha hr radii (i + 1) =
      (advance ha (ha.length - 2) (2 * π * (i : ℝ) / (radii.length : ℝ))
        (resampleLoop ha hr radii i).1,
       (resampleLoop ha hr radii i).2 ++
         [resampleOne ha hr radii
           (advance ha (ha.length - 2) (2 * π * (i : ℝ) / (radii.length : ℝ))
             (resampleLoop ha hr radii i).1) i]) := rfl
  rw [hstep, hprev]
  simp only []
  rw [hm, hθ, hadv, hv]

end Rough

namespace Rough

theorem advC0 : advance [π / 3, 2 * π / 3, π, 4 * π / 3, 5 * π / 3, π / 3 + 2 * π] 4 0 0 = 0 :=
  advance_stop _ _ _ _ (by
    rintro ⟨-, hgt⟩
    rw [show ([π / 3, 2 * π / 3, π, 4 * π / 3, 5 * π / 3, π / 3 + 2 * π] : List ℝ).getD (0 + 1) 0
        = 2 * π / 3 from rfl] at hgt
    linarith [Real.pi_pos])

theorem advC1 : advance [π / 3, 2 * π / 3, π, 4 * π / 3, 5 * π / 3, π / 3 + 2 * π] 4 (π / 3) 0
    = 0 :=
  advance_stop _ _ _ _ (by
    rintro ⟨-, hgt⟩
    rw [show ([π / 3, 2 * π / 3, π, 4 * π / 3, 5 * π / 3, π / 3 + 2 * π] : List ℝ).getD (0 + 1) 0
        = 2 * π / 3 from rfl] at hgt
    linarith [Real.pi_pos])

theorem advC2 : advance [π / 3, 2 * π / 3, π, 4 * π / 3, 5 * π / 3, π / 3 + 2 * π] 4 (2 * π / 3) 0
    = 0 :=
  advance_stop _ _ _ _ (by
    rintro ⟨-, hgt⟩
    rw [show ([π / 3, 2 * π / 3, π, 4 * π / 3, 5 * π / 3, π / 3 + 2 * π] : List ℝ).getD (0 + 1) 0
        = 2 * π / 3 from rfl] at hgt
    exact lt_irrefl _ hgt)

theorem advC3 : advance [π / 3, 2 * π / 3, π, 4 * π / 3, 5 * π / 3, π / 3 + 2 * π] 4 π 0 = 1 := by
  rw [advance_step _ _ _ _ ⟨by norm_num, by
    rw [show ([π / 3, 2 * π / 3, π, 4 * π / 3, 5 * π / 3, π / 3 + 2 * π] : List ℝ).getD (0 + 1) 0
        = 2 * π / 3 from rfl]
    linarith [Real.pi_pos]⟩]
  exact advance_stop _ _ _ _ (by
    rintro ⟨-, hgt⟩
    rw [show ([π / 3, 2 * π / 3, π, 4 * π / 3, 5 * π / 3, π / 3 + 2 * π] : List ℝ).getD (1 + 1) 0
        = π from rfl] at hgt
    exact lt_irrefl _ hgt)

theorem advC4 : advance [π / 3, 2 * π / 3, π, 4 * π / 3, 5 * π / 3, π / 3 + 2 * π] 4 (4 * π / 3) 1
    = 2 := by
  rw [advance_step _ _ _ _ ⟨by norm_num, by
    rw [show ([π / 3, 2 * π / 3, π, 4 * π / 3, 5 * π / 3, π / 3 + 2 * π] : List ℝ).getD (1 + 1) 0
        = π from rfl]
    linarith [Real.pi_pos]⟩]
  exact advance_stop _ _ _ _ (by
    rintro ⟨-, hgt⟩
    rw [show ([π / 3, 2 * π / 3, π, 4 * π / 3, 5 * π / 3, π / 3 + 2 * π] : List ℝ).getD (2 + 1) 0
        = 4 * π / 3 from rfl] at hgt
    exact lt_irrefl _ hgt)

theorem advC5 : advance [π / 3, 2 * π / 3, π, 4 * π / 3, 5 * π / 3, π / 3 + 2 * π] 4 (5 * π / 3) 2
    = 3 := by
  rw [advance_step _ _ _ _ ⟨by norm_num, by
    rw [show ([π / 3, 2 * π / 3, π, 4 * π / 3, 5 * π / 3, π / 3 + 2 * π] : List ℝ).getD (2 + 1) 0
        = 4 * π / 3 from rfl]
    linarith [Real.pi_pos]⟩]
  exact advance_stop _ _ _ _ (by
    rintro ⟨-, hgt⟩
    rw [show ([π / 3, 2 * π / 3, π, 4 * π / 3, 5 * π / 3, π / 3 + 2 * π] : List ℝ).getD (3 + 1) 0
        = 5 * π / 3 from rfl] at hgt
    exact lt_irrefl _ hgt)

end Rough

namespace Rough

theorem denC00 : rayDenom [π / 3, 2 * π / 3, π, 4 * π / 3, 5 * π / 3, π / 3 + 2 * π]
    [10, 12, 10, 10, 10, 10] 0 0 = 1 * Real.sqrt 3 := by
  unfold rayDenom edgeP1x edgeP1y edgeP2x edgeP2y
  norm_num [List.getD]
  rw [sin_two_pi_div_three]
  ring

theorem denC01 : rayDenom [π / 3, 2 * π / 3, π, 4 * π / 3, 5 * π / 3, π / 3 + 2 * π]
    [10, 12, 10, 10, 10, 10] 0 (π / 3) = 6 * Real.sqrt 3 := by
  unfold rayDenom edgeP1x edgeP1y edgeP2x edgeP2y
  norm_num [List.getD]
  rw [sin_two_pi_div_three, cos_two_pi_div_three]
  ring

theorem denC02 : rayDenom [π / 3, 2 * π / 3, π, 4 * π / 3, 5 * π / 3, π / 3 + 2 * π]
    [10, 12, 10, 10, 10, 10] 0 (2 * π / 3) = 5 * Real.sqrt 3 := by
  unfold rayDenom edgeP1x edgeP1y edgeP2x edgeP2y
  norm_num [List.getD]
  rw [sin_two_pi_div_three, cos_two_pi_div_three]
  ring

theorem denC13 : rayDenom [π / 3, 2 * π / 3, π, 4 * π / 3, 5 * π / 3, π / 3 + 2 * π]
    [10, 12, 10, 10, 10, 10] 1 π = 6 * Real.sqrt 3 := by
  unfold rayDenom edgeP1x edgeP1y edgeP2x edgeP2y
  norm_num [List.getD]
  rw [sin_two_pi_div_three]
  ring

theorem denC24 : rayDenom [π / 3, 2 * π / 3, π, 4 * π / 3, 5 * π / 3, π / 3 + 2 * π]
    [10, 12, 10, 10, 10, 10] 2 (4 * π / 3) = 5 * Real.sqrt 3 := by
  unfold rayDenom edgeP1x edgeP1y edgeP2x edgeP2y
  norm_num [List.getD]
  rw [sin_four_pi_div_three, cos_four_pi_div_three]
  ring

theorem denC35 : rayDenom [π / 3, 2 * π / 3, π, 4 * π / 3, 5 * π / 3, π / 3 + 2 * π]
    [10, 12, 10, 10, 10, 10] 3 (5 * π / 3) = 5 * Real.sqrt 3 := by
  unfold rayDenom edgeP1x edgeP1y edgeP2x edgeP2y
  norm_num [List.getD]
  rw [sin_four_pi_div_three, cos_four_pi_div_three, sin_five_pi_div_three, cos_five_pi_div_three]
  ring

theorem numC0 : rayNumer [π / 3, 2 * π / 3, π, 4 * π / 3, 5 * π / 3, π / 3 + 2 * π]
    [10, 12, 10, 10, 10, 10] 0 = 60 * Real.sqrt 3 := by
  unfold rayNumer edgeP1x edgeP1y edgeP2x edgeP2y
  norm_num [List.getD]
  rw [sin_two_pi_div_three, cos_two_pi_div_three]
  ring

theorem numC1 : rayNumer [π / 3, 2 * π / 3, π, 4 * π / 3, 5 * π / 3, π / 3 + 2 * π]
    [10, 12, 10, 10, 10, 10] 1 = 60 * Real.sqrt 3 := by
  unfold rayNumer edgeP1x edgeP1y edgeP2x edgeP2y
  norm_num [List.getD]
  rw [sin_two_pi_div_three]
  ring

theorem numC2 : rayNumer [π / 3, 2 * π / 3, π, 4 * π / 3, 5 * π / 3, π / 3 + 2 * π]
    [10, 12, 10, 10, 10, 10] 2 = 50 * Real.sqrt 3 := by
  unfold rayNumer edgeP1x edgeP1y edgeP2x edgeP2y
  norm_num [List.getD]
  rw [sin_four_pi_div_three]
  ring

theorem numC3 : rayNumer [π / 3, 2 * π / 3, π, 4 * π / 3, 5 * π / 3, π / 3 + 2 * π]
    [10, 12, 10, 10, 10, 10] 3 = 50 * Real.sqrt 3 := by
  unfold rayNumer edgeP1x edgeP1y edgeP2x edgeP2y
  norm_num [List.getD]
  rw [sin_four_pi_div_three, cos_four_pi_div_three, sin_five_pi_div_three, cos_five_pi_div_three]
  ring

end Rough

namespace Rough

theorem rsC0 : resampleOne [π / 3, 2 * π / 3, π, 4 * π / 3, 5 * π / 3, π / 3 + 2 * π]
    [10, 12, 10, 10, 10, 10] [1, 10, 12, 10, 10, 10] 0 0 = 60 :=
  resampleOne_eval _ _ _ _ _ _ _ _ _
    (theta6 [1, 10, 12, 10, 10, 10] rfl _ _ (by push_cast; ring)) denC00 numC0 (by norm_num) (by norm_num)

theorem rsC1 : resampleOne [π / 3, 2 * π / 3, π, 4 * π / 3, 5 * π / 3, π / 3 + 2 * π]
    [10, 12, 10, 10, 10, 10] [1, 10, 12, 10, 10, 10] 0 1 = 10 :=
  resampleOne_eval _ _ _ _ _ _ _ _ _
    (theta6 [1, 10, 12, 10, 10, 10] rfl _ _ (by push_cast; ring)) denC01 numC0 (by norm_num) (by norm_num)

theorem rsC2 : resampleOne [π / 3, 2 * π / 3, π, 4 * π / 3, 5 * π / 3, π / 3 + 2 * π]
    [10, 12, 10, 10, 10, 10] [1, 10, 12, 10, 10, 10] 0 2 = 12 :=
  resampleOne_eval _ _ _ _ _ _ _ _ _
    (theta6 [1, 10, 12, 10, 10, 10] rfl _ _ (by push_cast; ring)) denC02 numC0 (by norm_num) (by norm_num)

theorem rsC3 : resampleOne [π / 3, 2 * π / 3, π, 4 * π / 3, 5 * π / 3, π / 3 + 2 * π]
    [10, 12, 10, 10, 10, 10] [1, 10, 12, 10, 10, 10] 1 3 = 10 :=
  resampleOne_eval _ _ _ _ _ _ _ _ _
    (theta6 [1, 10, 12, 10, 10, 10] rfl _ _ (by push_cast; ring)) denC13 numC1 (by norm_num) (by norm_num)

theorem rsC4 : resampleOne [π / 3, 2 * π / 3, π, 4 * π / 3, 5 * π / 3, π / 3 + 2 * π]
    [10, 12, 10, 10, 10, 10] [1, 10, 12, 10, 10, 10] 2 4 = 10 :=
  resampleOne_eval _ _ _ _ _ _ _ _ _
    (theta6 [1, 10, 12, 10, 10, 10] rfl _ _ (by push_cast; ring)) denC24 numC2 (by norm_num) (by norm_num)

theorem rsC5 : resampleOne [π / 3, 2 * π / 3, π, 4 * π / 3, 5 * π / 3, π / 3 + 2 * π]
    [10, 12, 10, 10, 10, 10] [1, 10, 12, 10, 10, 10] 3 5 = 10 :=
  resampleOne_eval _ _ _ _ _ _ _ _ _
    (theta6 [1, 10, 12, 10, 10, 10] rfl _ _ (by push_cast; ring)) denC35 numC3 (by norm_num) (by norm_num)

theorem rlC0 : resampleLoop [π / 3, 2 * π / 3, π, 4 * π / 3, 5 * π / 3, π / 3 + 2 * π]
    [10, 12, 10, 10, 10, 10] [1, 10, 12, 10, 10, 10] 0 = (0, []) := rfl

theorem rlC1 : resampleLoop [π / 3, 2 * π / 3, π, 4 * π / 3, 5 * π / 3, π / 3 + 2 * π]
    [10, 12, 10, 10, 10, 10] [1, 10, 12, 10, 10, 10] 1 = (0, [60]) :=
  resampleLoop_succ_eval _ _ _ 0 0 [] rlC0 4 rfl 0
    (theta6 [1, 10, 12, 10, 10, 10] rfl _ _ (by push_cast; ring)) 0 advC0 60 rsC0

theorem rlC2 : resampleLoop [π / 3, 2 * π / 3, π, 4 * π / 3, 5 * π / 3, π / 3 + 2 * π]
    [10, 12, 10, 10, 10, 10] [1, 10, 12, 10, 10, 10] 2 = (0, [60, 10]) :=
  resampleLoop_succ_eval _ _ _ 1 0 [60] rlC1 4 rfl (π / 3)
    (theta6 [1, 10, 12, 10, 10, 10] rfl _ _ (by push_cast; ring)) 0 advC1 10 rsC1

theorem rlC3 : resampleLoop [π / 3, 2 * π / 3, π, 4 * π / 3, 5 * π / 3, π / 3 + 2 * π]
    [10, 12, 10, 10, 10, 10] [1, 10, 12, 10, 10, 10] 3 = (0, [60, 10, 12]) :=
  resampleLoop_succ_eval _ _ _ 2 0 [60, 10] rlC2 4 rfl (2 * π / 3)
    (theta6 [1, 10, 12, 10, 10, 10] rfl _ _ (by push_cast; ring)) 0 advC2 12 rsC2

theorem rlC4 : resampleLoop [π / 3, 2 * π / 3, π, 4 * π / 3, 5 * π / 3, π / 3 + 2 * π]
    [10, 12, 10, 10, 10, 10] [1, 10, 12, 10, 10, 10] 4 = (1, [60, 10, 12, 10]) :=
  resampleLoop_succ_eval _ _ _ 3 0 [60, 10, 12] rlC3 4 rfl π
    (theta6 [1, 10, 12, 10, 10, 10] rfl _ _ (by push_cast; ring)) 1 advC3 10 rsC3

theorem rlC5 : resampleLoop [π / 3, 2 * π / 3, π, 4 * π / 3, 5 * π / 3, π / 3 + 2 * π]
    [10, 12, 10, 10, 10, 10] [1, 10, 12, 10, 10, 10] 5 = (2, [60, 10, 12, 10, 10]) :=
  resampleLoop_succ_eval _ _ _ 4 1 [60, 10, 12, 10] rlC4 4 rfl (4 * π / 3)
    (theta6 [1, 10, 12, 10, 10, 10] rfl _ _ (by push_cast; ring)) 2 advC4 10 rsC4

theorem rlC6 : resampleLoop [π / 3, 2 * π / 3, π, 4 * π / 3, 5 * π / 3, π / 3 + 2 * π]
    [10, 12, 10, 10, 10, 10] [1, 10, 12, 10, 10, 10] 6 = (3, [60, 10, 12, 10, 10, 10]) :=
  resampleLoop_succ_eval _ _ _ 5 2 [60, 10, 12, 10, 10] rlC5 4 rfl (5 * π / 3)
    (theta6 [1, 10, 12, 10, 10, 10] rfl _ _ (by push_cast; ring)) 3 advC5 10 rsC5

theorem getConvexRadiiC : getConvexRadii [1, 10, 12, 10, 10, 10] = [60, 10, 12, 10, 10, 10] := by
  unfold getConvexRadii
  rw [if_neg notDegenC, haC, hrC]
  rw [show (List.length ([1, 10, 12, 10, 10, 10] : List ℝ)) = 6 from rfl]
  rw [rlC6]

end Rough

namespace Rough

theorem advB0 : advance [0, π / 3, 2 * π / 3, π, 4 * π / 3, 5 * π / 3, 0 + 2 * π] 5 0 0 = 0 :=
  advance_stop _ _ _ _ (by
    rintro ⟨-, hgt⟩
    rw [show ([0, π / 3, 2 * π / 3, π, 4 * π / 3, 5 * π / 3, 0 + 2 * π] : List ℝ).getD (0 + 1) 0
        = π / 3 from rfl] at hgt
    linarith [Real.pi_pos])

theorem advB1 : advance [0, π / 3, 2 * π / 3, π, 4 * π / 3, 5 * π / 3, 0 + 2 * π] 5 (π / 3) 0
    = 0 :=
  advance_stop _ _ _ _ (by
    rintro ⟨-, hgt⟩
    rw [show ([0, π / 3, 2 * π / 3, π, 4 * π / 3, 5 * π / 3, 0 + 2 * π] : List ℝ).getD (0 + 1) 0
        = π / 3 from rfl] at hgt
    exact lt_irrefl _ hgt)

theorem advB2 : advance [0, π / 3, 2 * π / 3, π, 4 * π / 3, 5 * π / 3, 0 + 2 * π] 5 (2 * π / 3) 0
    = 1 := by
  rw [advance_step _ _ _ _ ⟨by norm_num, by
    rw [show ([0, π / 3, 2 * π / 3, π, 4 * π / 3, 5 * π / 3, 0 + 2 * π] : List ℝ).getD (0 + 1) 0
        = π / 3 from rfl]
    linarith [Real.pi_pos]⟩]
  exact advance_stop _ _ _ _ (by
    rintro ⟨-, hgt⟩
    rw [show ([0, π / 3, 2 * π / 3, π, 4 * π / 3, 5 * π / 3, 0 + 2 * π] : List ℝ).getD (1 + 1) 0
        = 2 * π / 3 from rfl] at hgt
    exact lt_irrefl _ hgt)

theorem advB3 : advance [0, π / 3, 2 * π / 3, π, 4 * π / 3, 5 * π / 3, 0 + 2 * π] 5 π 1 = 2 := by
  rw [advance_step _ _ _ _ ⟨by norm_num, by
    rw [show ([0, π / 3, 2 * π / 3, π, 4 * π / 3, 5 * π / 3, 0 + 2 * π] : List ℝ).getD (1 + 1) 0
        = 2 * π / 3 from rfl]
    linarith [Real.pi_pos]⟩]
  exact advance_stop _ _ _ _ (by
    rintro ⟨-, hgt⟩
    rw [show ([0, π / 3, 2 * π / 3, π, 4 * π / 3, 5 * π / 3, 0 + 2 * π] : List ℝ).getD (2 + 1) 0
        = π from rfl] at hgt
    exact lt_irrefl _ hgt)

theorem advB4 : advance [0, π / 3, 2 * π / 3, π, 4 * π / 3, 5 * π / 3, 0 + 2 * π] 5 (4 * π / 3) 2
    = 3 := by
  rw [advance_step _ _ _ _ ⟨by norm_num, by
    rw [show ([0, π / 3, 2 * π / 3, π, 4 * π / 3, 5 * π / 3, 0 + 2 * π] : List ℝ).getD (2 + 1) 0
        = π from rfl]
    linarith [Real.pi_pos]⟩]
  exact advance_stop _ _ _ _ (by
    rintro ⟨-, hgt⟩
    rw [show ([0, π / 3, 2 * π / 3, π, 4 * π / 3, 5 * π / 3, 0 + 2 * π] : List ℝ).getD (3 + 1) 0
        = 4 * π / 3 from rfl] at hgt
    exact lt_irrefl _ hgt)

theorem advB5 : advance [0, π / 3, 2 * π / 3, π, 4 * π / 3, 5 * π / 3, 0 + 2 * π] 5 (5 * π / 3) 3
    = 4 := by
  rw [advance_step _ _ _ _ ⟨by norm_num, by
    rw [show ([0, π / 3, 2 * π / 3, π, 4 * π / 3, 5 * π / 3, 0 + 2 * π] : List ℝ).getD (3 + 1) 0
        = 4 * π / 3 from rfl]
    linarith [Real.pi_pos]⟩]
  exact advance_stop _ _ _ _ (by
    rintro ⟨-, hgt⟩
    rw [show ([0, π / 3, 2 * π / 3, π, 4 * π / 3, 5 * π / 3, 0 + 2 * π] : List ℝ).getD (4 + 1) 0
        = 5 * π / 3 from rfl] at hgt
    exact lt_irrefl _ hgt)

theorem denB00 : rayDenom [0, π / 3, 2 * π / 3, π, 4 * π / 3, 5 * π / 3, 0 + 2 * π]
    [12.5, 12.5, 12.5, 12.5, 12.5, 12.5, 12.5] 0 0 = 6.25 * Real.sqrt 3 := by
  unfold rayDenom edgeP1x edgeP1y edgeP2x edgeP2y
  norm_num [List.getD]
  ring

theorem denB01 : rayDenom [0, π / 3, 2 * π / 3, π, 4 * π / 3, 5 * π / 3, 0 + 2 * π]
    [12.5, 12.5, 12.5, 12.5, 12.5, 12.5, 12.5] 0 (π / 3) = 6.25 * Real.sqrt 3 := by
  unfold rayDenom edgeP1x edgeP1y edgeP2x edgeP2y
  norm_num [List.getD]
  ring

theorem denB12 : rayDenom [0, π / 3, 2 * π / 3, π, 4 * π / 3, 5 * π / 3, 0 + 2 * π]
    [12.5, 12.5, 12.5, 12.5, 12.5, 12.5, 12.5] 1 (2 * π / 3) = 6.25 * Real.sqrt 3 := by
  unfold rayDenom edgeP1x edgeP1y edgeP2x edgeP2y
  norm_num [List.getD]
  rw [sin_two_pi_div_three, cos_two_pi_div_three]
  ring

theorem denB23 : rayDenom [0, π / 3, 2 * π / 3, π, 4 * π / 3, 5 * π / 3, 0 + 2 * π]
    [12.5, 12.5, 12.5, 12.5, 12.5, 12.5, 12.5] 2 π = 6.25 * Real.sqrt 3 := by
  unfold rayDenom edgeP1x edgeP1y edgeP2x edgeP2y
  norm_num [List.getD]
  rw [sin_two_pi_div_three]
  ring

theorem denB34 : rayDenom [0, π / 3, 2 * π / 3, π, 4 * π / 3, 5 * π / 3, 0 + 2 * π]
    [12.5, 12.5, 12.5, 12.5, 12.5, 12.5, 12.5] 3 (4 * π / 3) = 6.25 * Real.sqrt 3 := by
  unfold rayDenom edgeP1x edgeP1y edgeP2x edgeP2y
  norm_num [List.getD]
  rw [sin_four_pi_div_three, cos_four_pi_div_three]
  ring

theorem denB45 : rayDenom [0, π / 3, 2 * π / 3, π, 4 * π / 3, 5 * π / 3, 0 + 2 * π]
    [12.5, 12.5, 12.5, 12.5, 12.5, 12.5, 12.5] 4 (5 * π / 3) = 6.25 * Real.sqrt 3 := by
  unfold rayDenom edgeP1x edgeP1y edgeP2x edgeP2y
  norm_num [List.getD]
  rw [sin_four_pi_div_three, cos_four_pi_div_three, sin_five_pi_div_three, cos_five_pi_div_three]
  ring

theorem numB0 : rayNumer [0, π / 3, 2 * π / 3, π, 4 * π / 3, 5 * π / 3, 0 + 2 * π]
    [12.5, 12.5, 12.5, 12.5, 12.5, 12.5, 12.5] 0 = 78.125 * Real.sqrt 3 := by
  unfold rayNumer edgeP1x edgeP1y edgeP2x edgeP2y
  norm_num [List.getD]
  ring

theorem numB1 : rayNumer [0, π / 3, 2 * π / 3, π, 4 * π / 3, 5 * π / 3, 0 + 2 * π]
    [12.5, 12.5, 12.5, 12.5, 12.5, 12.5, 12.5] 1 = 78.125 * Real.sqrt 3 := by
  unfold rayNumer edgeP1x edgeP1y edgeP2x edgeP2y
  norm_num [List.getD]
  rw [sin_two_pi_div_three, cos_two_pi_div_three]
  ring

theorem numB2 : rayNumer [0, π / 3, 2 * π / 3, π, 4 * π / 3, 5 * π / 3, 0 + 2 * π]
    [12.5, 12.5, 12.5, 12.5, 12.5, 12.5, 12.5] 2 = 78.125 * Real.sqrt 3 := by
  unfold rayNumer edgeP1x edgeP1y edgeP2x edgeP2y
  norm_num [List.getD]
  rw [sin_two_pi_div_three]
  ring

theorem numB3 : rayNumer [0, π / 3, 2 * π / 3, π, 4 * π / 3, 5 * π / 3, 0 + 2 * π]
    [12.5, 12.5, 12.5, 12.5, 12.5, 12.5, 12.5] 3 = 78.125 * Real.sqrt 3 := by
  unfold rayNumer edgeP1x edgeP1y edgeP2x edgeP2y
  norm_num [List.getD]
  rw [sin_four_pi_div_three]
  ring

theorem numB4 : rayNumer [0, π / 3, 2 * π / 3, π, 4 * π / 3, 5 * π / 3, 0 + 2 * π]
    [12.5, 12.5, 12.5, 12.5, 12.5, 12.5, 12.5] 4 = 78.125 * Real.sqrt 3 := by
  unfold rayNumer edgeP1x edgeP1y edgeP2x edgeP2y
  norm_num [List.getD]
  rw [sin_four_pi_div_three, cos_four_pi_div_three, sin_five_pi_div_three, cos_five_pi_div_three]
  ring

end Rough

namespace Rough

theorem rsB0 : resampleOne [0, π / 3, 2 * π / 3, π, 4 * π / 3, 5 * π / 3, 0 + 2 * π]
    [12.5, 12.5, 12.5, 12.5, 12.5, 12.5, 12.5] [12.5, 12.5, 12.5, 12.5, 12.5, 12.5] 0 0 = 12.5 :=
  resampleOne_eval _ _ _ _ _ _ _ _ _
    (theta6 [12.5, 12.5, 12.5, 12.5, 12.5, 12.5] rfl _ _ (by push_cast; ring)) denB00 numB0
    (by norm_num) (by norm_num)

theorem rsB1 : resampleOne [0, π / 3, 2 * π / 3, π, 4 * π / 3, 5 * π / 3, 0 + 2 * π]
    [12.5, 12.5, 12.5, 12.5, 12.5, 12.5, 12.5] [12.5, 12.5, 12.5, 12.5, 12.5, 12.5] 0 1 = 12.5 :=
  resampleOne_eval _ _ _ _ _ _ _ _ _
    (theta6 [12.5, 12.5, 12.5, 12.5, 12.5, 12.5] rfl _ _ (by push_cast; ring)) denB01 numB0
    (by norm_num) (by norm_num)

theorem rsB2 : resampleOne [0, π / 3, 2 * π / 3, π, 4 * π / 3, 5 * π / 3, 0 + 2 * π]
    [12.5, 12.5, 12.5, 12.5, 12.5, 12.5, 12.5] [12.5, 12.5, 12.5, 12.5, 12.5, 12.5] 1 2 = 12.5 :=
  resampleOne_eval _ _ _ _ _ _ _ _ _
    (theta6 [12.5, 12.5, 12.5, 12.5, 12.5, 12.5] rfl _ _ (by push_cast; ring)) denB12 numB1
    (by norm_num) (by norm_num)

theorem rsB3 : resampleOne [0, π / 3, 2 * π / 3, π, 4 * π / 3, 5 * π / 3, 0 + 2 * π]
    [12.5, 12.5, 12.5, 12.5, 12.5, 12.5, 12.5] [12.5, 12.5, 12.5, 12.5, 12.5, 12.5] 2 3 = 12.5 :=
  resampleOne_eval _ _ _ _ _ _ _ _ _
    (theta6 [12.5, 12.5, 12.5, 12.5, 12.5, 12.5] rfl _ _ (by push_cast; ring)) denB23 numB2
    (by norm_num) (by norm_num)

theorem rsB4 : resampleOne [0, π / 3, 2 * π / 3, π, 4 * π / 3, 5 * π / 3, 0 + 2 * π]
    [12.5, 12.5, 12.5, 12.5, 12.5, 12.5, 12.5] [12.5, 12.5, 12.5, 12.5, 12.5, 12.5] 3 4 = 12.5 :=
  resampleOne_eval _ _ _ _ _ _ _ _ _
    (theta6 [12.5, 12.5, 12.5, 12.5, 12.5, 12.5] rfl _ _ (by push_cast; ring)) denB34 numB3
    (by norm_num) (by norm_num)

theorem rsB5 : resampleOne [0, π / 3, 2 * π / 3, π, 4 * π / 3, 5 * π / 3, 0 + 2 * π]
    [12.5, 12.5, 12.5, 12.5, 12.5, 12.5, 12.5] [12.5, 12.5, 12.5, 12.5, 12.5, 12.5] 4 5 = 12.5 :=
  resampleOne_eval _ _ _ _ _ _ _ _ _
    (theta6 [12.5, 12.5, 12.5, 12.5, 12.5, 12.5] rfl _ _ (by push_cast; ring)) denB45 numB4
    (by norm_num) (by norm_num)

theorem rlB0 : resampleLoop [0, π / 3, 2 * π / 3, π, 4 * π / 3, 5 * π / 3, 0 + 2 * π]
    [12.5, 12.5, 12.5, 12.5, 12.5, 12.5, 12.5] [12.5, 12.5, 12.5, 12.5, 12.5, 12.5] 0 =
    (0, []) := rfl

theorem rlB1 : resampleLoop [0, π / 3, 2 * π / 3, π, 4 * π / 3, 5 * π / 3, 0 + 2 * π]
    [12.5, 12.5, 12.5, 12.5, 12.5, 12.5, 12.5] [12.5, 12.5, 12.5, 12.5, 12.5, 12.5] 1 =
    (0, [12.5]) :=
  resampleLoop_succ_eval _ _ _ 0 0 [] rlB0 5 rfl 0
    (theta6 [12.5, 12.5, 12.5, 12.5, 12.5, 12.5] rfl _ _ (by push_cast; ring)) 0 advB0 12.5 rsB0

theorem rlB2 : resampleLoop [0, π / 3, 2 * π / 3, π, 4 * π / 3, 5 * π / 3, 0 + 2 * π]
    [12.5, 12.5, 12.5, 12.5, 12.5, 12.5, 12.5] [12.5, 12.5, 12.5, 12.5, 12.5, 12.5] 2 =
    (0, [12.5, 12.5]) :=
  resampleLoop_succ_eval _ _ _ 1 0 [12.5] rlB1 5 rfl (π / 3)
    (theta6 [12.5, 12.5, 12.5, 12.5, 12.5, 12.5] rfl _ _ (by push_cast; ring)) 0 advB1 12.5 rsB1

theorem rlB3 : resampleLoop [0, π / 3, 2 * π / 3, π, 4 * π / 3, 5 * π / 3, 0 + 2 * π]
    [12.5, 12.5, 12.5, 12.5, 12.5, 12.5, 12.5] [12.5, 12.5, 12.5, 12.5, 12.5, 12.5] 3 =
    (1, [12.5, 12.5, 12.5]) :=
  resampleLoop_succ_eval _ _ _ 2 0 [12.5, 12.5] rlB2 5 rfl (2 * π / 3)
    (theta6 [12.5, 12.5, 12.5, 12.5, 12.5, 12.5] rfl _ _ (by push_cast; ring)) 1 advB2 12.5 rsB2

theorem rlB4 : resampleLoop [0, π / 3, 2 * π / 3, π, 4 * π / 3, 5 * π / 3, 0 + 2 * π]
    [12.5, 12.5, 12.5, 12.5, 12.5, 12.5, 12.5] [12.5, 12.5, 12.5, 12.5, 12.5, 12.5] 4 =
    (2, [12.5, 12.5, 12.5, 12.5]) :=
  resampleLoop_succ_eval _ _ _ 3 1 [12.5, 12.5, 12.5] rlB3 5 rfl π
    (theta6 [12.5, 12.5, 12.5, 12.5, 12.5, 12.5] rfl _ _ (by push_cast; ring)) 2 advB3 12.5 rsB3

theorem rlB5 : resampleLoop [0, π / 3, 2 * π / 3, π, 4 * π / 3, 5 * π / 3, 0 + 2 * π]
    [12.5, 12.5, 12.5, 12.5, 12.5, 12.5, 12.5] [12.5, 12.5, 12.5, 12.5, 12.5, 12.5] 5 =
    (3, [12.5, 12.5, 12.5, 12.5, 12.5]) :=
  resampleLoop_succ_eval _ _ _ 4 2 [12.5, 12.5, 12.5, 12.5] rlB4 5 rfl (4 * π / 3)
    (theta6 [12.5, 12.5, 12.5, 12.5, 12.5, 12.5] rfl _ _ (by push_cast; ring)) 3 advB4 12.5 rsB4

theorem rlB6 : resampleLoop [0, π / 3, 2 * π / 3, π, 4 * π / 3, 5 * π / 3, 0 + 2 * π]
    [12.5, 12.5, 12.5, 12.5, 12.5, 12.5, 12.5] [12.5, 12.5, 12.5, 12.5, 12.5, 12.5] 6 =
    (4, [12.5, 12.5, 12.5, 12.5, 12.5, 12.5]) :=
  resampleLoop_succ_eval _ _ _ 5 3 [12.5, 12.5, 12.5, 12.5, 12.5] rlB5 5 rfl (5 * π / 3)
    (theta6 [12.5, 12.5, 12.5, 12.5, 12.5, 12.5] rfl _ _ (by push_cast; ring)) 4 advB5 12.5 rsB5

theorem getConvexRadiiB : getConvexRadii [12.5, 12.5, 12.5, 12.5, 12.5, 12.5] =
    [12.5, 12.5, 12.5, 12.5, 12.5, 12.5] := by
  unfold getConvexRadii
  rw [if_neg notDegenB, haB, hrB]
  rw [show (List.length ([12.5, 12.5, 12.5, 12.5, 12.5, 12.5] : List ℝ)) = 6 from rfl]
  rw [rlB6]

end Rough

namespace Rough

theorem roughingStep_eval (vol : List ℝ → ℝ) (fin : List ℝ) (rs : List RoughPassData)
    (cur : List ℝ) (vr cv : ℝ) (k : ℕ) (op : RoughPass) (vr2 : ℝ) (nr : List ℝ)
    (hvr : vr - op.stepValueMm = vr2)
    (hnr : getConvexRadii (fin.map (fun r => max r (vr - op.stepValueMm))) = nr) :
    roughingStep vol fin "CONCENTRIC" ⟨rs, cur, vr, cv⟩ (k, op) =
      ⟨rs ++ [⟨k + 1, nr, pyRound2 (max 0 (cv - vol nr)), op.speedSPerRev⟩],
       nr, vr2, vol nr⟩ := by
  have hbase : roughingStep vol fin "CONCENTRIC" ⟨rs, cur, vr, cv⟩ (k, op) =
      ⟨rs ++ [⟨k + 1, getConvexRadii (fin.map (fun r => max r (vr - op.stepValueMm))),
        pyRound2 (max 0 (cv -
          vol (getConvexRadii (fin.map (fun r => max r (vr - op.stepValueMm)))))),
        op.speedSPerRev⟩],
       getConvexRadii (fin.map (fun r => max r (vr - op.stepValueMm))),
       vr - op.stepValueMm,
       vol (getConvexRadii (fin.map (fun r => max r (vr - op.stepValueMm))))⟩ := rfl
  rw [hbase, hnr, hvr]

theorem hnrStep1 : getConvexRadii
    (List.map (fun r => max r ((13 : ℝ) - 0.5)) [1, 10, 12, 10, 10, 10]) =
    [12.5, 12.5, 12.5, 12.5, 12.5, 12.5] := by
  rw [show List.map (fun r => max r ((13 : ℝ) - 0.5)) [1, 10, 12, 10, 10, 10] =
      [12.5, 12.5, 12.5, 12.5, 12.5, 12.5] from by norm_num]
  exact getConvexRadiiB

theorem hnrStep2 : getConvexRadii
    (List.map (fun r => max r ((12.5 : ℝ) - 11.5)) [1, 10, 12, 10, 10, 10]) =
    [60, 10, 12, 10, 10, 10] := by
  rw [show List.map (fun r => max r ((12.5 : ℝ) - 11.5)) [1, 10, 12, 10, 10, 10] =
      [1, 10, 12, 10, 10, 10] from by norm_num]
  exact getConvexRadiiC

end Rough

namespace Rough

theorem loopStateC3 (vol : List ℝ → ℝ) :
    loopState vol [1, 10, 12, 10, 10, 10] 13 "CONCENTRIC" [⟨0.5, 7⟩, ⟨11.5, 7⟩] =
    ⟨[⟨1, [12.5, 12.5, 12.5, 12.5, 12.5, 12.5],
        pyRound2 (max 0 (vol (List.replicate 360 13) -
          vol [12.5, 12.5, 12.5, 12.5, 12.5, 12.5])), 7⟩,
      ⟨2, [60, 10, 12, 10, 10, 10],
        pyRound2 (max 0 (vol [12.5, 12.5, 12.5, 12.5, 12.5, 12.5] -
          vol [60, 10, 12, 10, 10, 10])), 7⟩],
     [60, 10, 12, 10, 10, 10], 1, vol [60, 10, 12, 10, 10, 10]⟩ := by
  have h0 : loopState vol [1, 10, 12, 10, 10, 10] 13 "CONCENTRIC" [⟨0.5, 7⟩, ⟨11.5, 7⟩] =
      List.foldl (roughingStep vol [1, 10, 12, 10, 10, 10] "CONCENTRIC")
        ⟨[], List.replicate 6 13, 13, vol (List.replicate 360 13)⟩
        [(0, ⟨0.5, 7⟩), (1, ⟨11.5, 7⟩)] := rfl
  rw [h0, List.foldl_cons, List.foldl_cons, List.foldl_nil]
  rw [roughingStep_eval vol _ [] (List.replicate 6 13) 13 (vol (List.replicate 360 13)) 0
    ⟨0.5, 7⟩ 12.5 [12.5, 12.5, 12.5, 12.5, 12.5, 12.5]
    (by show (13 : ℝ) - 0.5 = 12.5; norm_num) hnrStep1]
  rw [roughingStep_eval vol _ _ _ _ _ _ _ 1 [60, 10, 12, 10, 10, 10]
    (by show (12.5 : ℝ) - 11.5 = 1; norm_num) hnrStep2]
  rfl

theorem groC3_eval (vol : List ℝ → ℝ) :
    generateRoughingOperations vol [1, 10, 12, 10, 10, 10] 13 "CONCENTRIC"
      [⟨0.5, 7⟩, ⟨11.5, 7⟩] =
    [⟨1, [12.5, 12.5, 12.5, 12.5, 12.5, 12.5],
        pyRound2 (max 0 (vol (List.replicate 360 13) -
          vol [12.5, 12.5, 12.5, 12.5, 12.5, 12.5])), 7⟩,
     ⟨2, [60, 10, 12, 10, 10, 10],
        pyRound2 (max 0 (vol [12.5, 12.5, 12.5, 12.5, 12.5, 12.5] -
          vol [60, 10, 12, 10, 10, 10])), 7⟩,
     ⟨3, [1, 10, 12, 10, 10, 10],
        pyRound2 (max 0 (vol [60, 10, 12, 10, 10, 10] -
          vol [1, 10, 12, 10, 10, 10])), 7⟩] := by
  have hcond : npMax (List.zipWith (fun c f => c - f) ([60, 10, 12, 10, 10, 10] : List ℝ)
      [1, 10, 12, 10, 10, 10]) > 0.001 := by
    rw [show List.zipWith (fun c f => c - f) ([60, 10, 12, 10, 10, 10] : List ℝ)
        [1, 10, 12, 10, 10, 10] = [59, 0, 0, 0, 0, 0] from by norm_num]
    rw [show npMax [(59 : ℝ), 0, 0, 0, 0, 0] = 59 from by norm_num [npMax]]
    norm_num
  unfold generateRoughingOperations
  rw [loopStateC3 vol]
  simp only []
  rw [if_pos hcond]
  rfl

end Rough

/-- C3: the Roughing Contour Generator does NOT produce a sequence of contours
that is non-increasing in maximum radius.  On target `[1,10,12,10,10,10]`,
blank radius 13, CONCENTRIC passes (step 0.5 then 11.5), the first pass is the
circle of radius 12.5 but the second pass's hull resampling returns 60 at the
0-rad sample: that output angle precedes the first hull vertex's angle (π∕3),
so the persistent segment pointer leaves the resampler intersecting the ray
with the *extended line* through the first two hull vertices instead of a hull
segment — the wrap segment from the appended closing vertex is never selected
for those leading angles.  The max radius thus jumps 12.5 → 60 although every
input radius is ≤ 13. -/
theorem roughing_contour_max_radius_bug (vol : List ℝ → ℝ) :
    (Rough.generateRoughingOperations vol [1, 10, 12, 10, 10, 10] 13 "CONCENTRIC"
        [⟨0.5, 7⟩, ⟨11.5, 7⟩]).map Rough.RoughPassData.radii =
      [[12.5, 12.5, 12.5, 12.5, 12.5, 12.5], [60, 10, 12, 10, 10, 10],
        [1, 10, 12, 10, 10, 10]] ∧
    npMax [12.5, 12.5, 12.5, 12.5, 12.5, 12.5] < npMax ([60, 10, 12, 10, 10, 10] : List ℝ) := by
  constructor
  · rw [Rough.groC3_eval vol]
    rfl
  · rw [show npMax [(12.5 : ℝ), 12.5, 12.5, 12.5, 12.5, 12.5] = 12.5 from by norm_num [npMax],
      show npMax ([60, 10, 12, 10, 10, 10] : List ℝ) = 60 from by norm_num [npMax]]
    norm_num

theorem pyRound2_04605 : pyRound2 0.4605 = 0.46 := by
  unfold pyRound2 roundHalfEven
  rw [show (100 : ℝ) * 0.4605 = 46.05 from by norm_num]
  rw [if_neg (by norm_num [Int.fract])]
  rw [round_eq]
  norm_num

theorem pyRound2_00022 : pyRound2 0.0022 = 0 := by
  unfold pyRound2 roundHalfEven
  rw [show (100 : ℝ) * 0.0022 = 0.22 from by norm_num]
  rw [if_neg (by norm_num [Int.fract])]
  rw [round_eq]
  norm_num

namespace Rough

theorem loopStateC7 :
    loopState (fun l => l.sum / 10000) [1, 10, 12, 10, 10, 10] 13 "CONCENTRIC" [⟨0.5, 7⟩] =
    ⟨[⟨1, [12.5, 12.5, 12.5, 12.5, 12.5, 12.5], 0.46, 7⟩],
     [12.5, 12.5, 12.5, 12.5, 12.5, 12.5], 12.5, 0.0075⟩ := by
  have h0 : loopState (fun (l : List ℝ) => l.sum / 10000) [1, 10, 12, 10, 10, 10] 13 "CONCENTRIC"
      [⟨0.5, 7⟩] =
      List.foldl (roughingStep (fun (l : List ℝ) => l.sum / 10000) [1, 10, 12, 10, 10, 10]
        "CONCENTRIC")
        ⟨[], List.replicate 6 13, 13,
          (fun (l : List ℝ) => l.sum / 10000) (List.replicate 360 13)⟩
        [(0, ⟨0.5, 7⟩)] := rfl
  rw [h0, List.foldl_cons, List.foldl_nil]
  rw [roughingStep_eval _ _ _ _ _ _ _ _ 12.5 [12.5, 12.5, 12.5, 12.5, 12.5, 12.5]
    (by show (13 : ℝ) - 0.5 = 12.5; norm_num) hnrStep1]
  have hb : (fun (l : List ℝ) => l.sum / 10000) (List.replicate 360 13) = (0.468 : ℝ) := by
    show List.sum (List.replicate 360 (13 : ℝ)) / 10000 = 0.468
    rw [List.sum_replicate, nsmul_eq_mul]
    norm_num
  have h75 : List.sum ([12.5, 12.5, 12.5, 12.5, 12.5, 12.5] : List ℝ) / 10000 =
      (0.0075 : ℝ) := by norm_num
  rw [hb, h75]
  rw [show max (0 : ℝ) (0.468 - 0.0075) = 0.4605 from by norm_num]
  rw [pyRound2_04605]
  rfl

theorem groC7_eval :
    generateRoughingOperations (fun l => l.sum / 10000) [1, 10, 12, 10, 10, 10] 13 "CONCENTRIC"
      [⟨0.5, 7⟩] =
    [⟨1, [12.5, 12.5, 12.5, 12.5, 12.5, 12.5], 0.46, 7⟩,
     ⟨2, [1, 10, 12, 10, 10, 10], 0, 7⟩] := by
  have hcond : npMax (List.zipWith (fun c f => c - f)
      ([12.5, 12.5, 12.5, 12.5, 12.5, 12.5] : List ℝ) [1, 10, 12, 10, 10, 10]) > 0.001 := by
    rw [show List.zipWith (fun c f => c - f) ([12.5, 12.5, 12.5, 12.5, 12.5, 12.5] : List ℝ)
        [1, 10, 12, 10, 10, 10] = [11.5, 2.5, 0.5, 2.5, 2.5, 2.5] from by norm_num]
    rw [show npMax [(11.5 : ℝ), 2.5, 0.5, 2.5, 2.5, 2.5] = 11.5 from by norm_num [npMax]]
    norm_num
  unfold generateRoughingOperations
  rw [loopStateC7]
  simp only []
  rw [if_pos hcond]
  unfold createPassData
  simp only []
  rw [show max (0 : ℝ) (0.0075 - List.sum ([1, 10, 12, 10, 10, 10] : List ℝ) / 10000) =
      0.0022 from by norm_num]
  rw [pyRound2_00022]
  rfl

end Rough

/-- C7 counterexample: the reported `removedVolumeMm3` of a pass is NOT
exactly `max(0, previousVolume − currentVolume)` — `_create_pass_data` stores
`round(removed, 2)`.  With mesh volume `sum∕10000`, target `[1,10,12,10,10,10]`,
blank 13 and one CONCENTRIC pass of step 0.5, the first pass's exact removal
is `0.468 − 0.0075 = 0.4605` mm³ but the recorded value is `0.46`. -/
theorem pass_volume_exact_difference_counterexample :
    ((Rough.generateRoughingOperations (fun l => l.sum / 10000) [1, 10, 12, 10, 10, 10] 13
        "CONCENTRIC" [⟨0.5, 7⟩]).map Rough.RoughPassData.volume).getD 0 0 = 0.46 ∧
    max 0 ((fun (l : List ℝ) => l.sum / 10000) (List.replicate 360 13) -
        (fun (l : List ℝ) => l.sum / 10000)
          (((Rough.generateRoughingOperations (fun l => l.sum / 10000) [1, 10, 12, 10, 10, 10] 13
              "CONCENTRIC" [⟨0.5, 7⟩]).map Rough.RoughPassData.radii).getD 0 [])) = 0.4605 ∧
    (0.46 : ℝ) ≠ 0.4605 := by
  refine ⟨?_, ?_, by norm_num⟩
  · rw [Rough.groC7_eval]
    rfl
  · rw [Rough.groC7_eval]
    show max 0 (List.sum (List.replicate 360 (13 : ℝ)) / 10000 -
      List.sum ([12.5, 12.5, 12.5, 12.5, 12.5, 12.5] : List ℝ) / 10000) = 0.4605
    rw [List.sum_replicate, nsmul_eq_mul]
    norm_num
